import Mathlib

/-!
# check_ssl_cert: a shallow embedding of `main.go`

The program is one Go file with three functions: `checkCertificate`,
`tlsVersionToString` and `main`.  Everything the program asks of its
environment (the DNS lookup, the TLS dial, the peer certificate, the clock,
the text renderings done by `fmt`, `time` and `humanize`) is a field of a
`World`; a run is a `Proc`: the ordered list of the calls it made and the lines
it wrote, the deferred calls still pending, and the exit code once `os.Exit`
was called.

Numbers follow Go: `time.Duration` is an int64 count of nanoseconds
(`wrapInt64`, `timeSub`), `float64` is IEEE 754 binary64 with round to nearest,
ties to even (`Float64`, `roundQuot`).
-/

set_option maxRecDepth 100000

namespace CheckSslCert

/-! ## Go numbers -/

/-- Two's complement wrap-around of an integer into the int64 range. -/
def wrapInt64 (x : Int) : Int := (x + 2 ^ 63) % 2 ^ 64 - 2 ^ 63

/-- Constant `time.Second`, in nanoseconds. -/
def second : Int := 1000000000

/-- Constant `time.Hour`, in nanoseconds. -/
def hour : Int := 3600000000000

/-- Smallest `time.Duration` (`minDuration` in package time). -/
def minDuration : Int := -(2 ^ 63)

/-- Largest `time.Duration` (`maxDuration` in package time). -/
def maxDuration : Int := 2 ^ 63 - 1

/-- Method `Time.Sub` of package time on two wall-clock instants given in
nanoseconds: the difference `t - u`, replaced by the largest or smallest
duration when it does not fit an int64. -/
def timeSub (t u : Int) : Int :=
  if t - u < minDuration then minDuration
  else if maxDuration < t - u then maxDuration
  else t - u

/-- Function `time.Until(t)`, which is `t.Sub(time.Now())`. -/
def timeUntil (now t : Int) : Int := timeSub t now

/-- A finite float64 value `mant * 2 ^ exp`. -/
structure Float64 where
  mant : Int
  exp : Int
deriving DecidableEq, Repr

/-- Nearest natural number to `num / den`, a tie going to the even neighbour. -/
def roundHalfEven (num den : Nat) : Nat :=
  let q := num / den
  let r := num % den
  if 2 * r < den then q
  else if den < 2 * r then q + 1
  else if q % 2 = 0 then q else q + 1

/-- Position of the highest set bit of `n` (0 for `n < 2`), by halving at most
`fuel` times. -/
def log2Floor : Nat → Nat → Nat
  | 0, _ => 0
  | fuel + 1, n => if n < 2 then 0 else log2Floor fuel (n / 2) + 1

/-- Floor of the base 2 logarithm of `a / d`, for positive `a` and `d`. -/
def floorLog2Quot (a d : Nat) : Int :=
  let k : Int := (log2Floor a a : Int) - (log2Floor d d : Int)
  if 0 ≤ k then (if d * 2 ^ k.toNat ≤ a then k else k - 1)
  else (if d ≤ a * 2 ^ (-k).toNat then k else k - 1)

/-- Exponent of the last place of the float64 nearest to `a / d` (positive `a`
and `d`): 52 below the exponent of `a / d`, and never below -1074 (gradual
underflow under `2 ^ (-1022)`). -/
def quantumExp (a d : Nat) : Int :=
  let l := floorLog2Quot a d
  (if l < -1022 then -1022 else l) - 52

/-- Significand of the float64 nearest to `a / d`: `a / d` in units of
`2 ^ quantumExp a d`, rounded to the nearest integer, ties to even. -/
def roundMant (a d : Nat) : Nat :=
  let e := quantumExp a d
  if 0 ≤ e then roundHalfEven a (d * 2 ^ e.toNat)
  else roundHalfEven (a * 2 ^ (-e).toNat) d

/-- The float64 nearest to the rational `n / d` (`d` positive): a 53 bit
significand, ties to even, with the sign of `n`.  The magnitudes this program
reaches stay below `2 ^ 64`, so overflow to infinity does not arise. -/
def roundQuot (n : Int) (d : Nat) : Float64 :=
  if n.natAbs = 0 then ⟨0, 0⟩
  else ⟨if n < 0 then -(roundMant n.natAbs d : Int) else roundMant n.natAbs d,
    quantumExp n.natAbs d⟩

/-- Numerator of the value of a float64 written as a fraction. -/
def Float64.num (x : Float64) : Int :=
  if 0 ≤ x.exp then x.mant * 2 ^ x.exp.toNat else x.mant

/-- Denominator of the value of a float64 written as a fraction. -/
def Float64.den (x : Float64) : Nat :=
  if 0 ≤ x.exp then 1 else 2 ^ (-x.exp).toNat

/-- Conversion `float64(i)` of an integer. -/
def Float64.ofInt (i : Int) : Float64 := roundQuot i 1

/-- Float64 addition: the exact sum, rounded. -/
def Float64.add (x y : Float64) : Float64 :=
  roundQuot (x.num * y.den + y.num * x.den) (x.den * y.den)

/-- Float64 division by a nonzero value: the exact quotient, rounded. -/
def Float64.div (x y : Float64) : Float64 :=
  roundQuot (if y.num < 0 then -(x.num * y.den) else x.num * y.den)
    (x.den * y.num.natAbs)

/-- Float64 comparison `x <= y`. -/
def Float64.le (x y : Float64) : Prop := x.num * y.den ≤ y.num * x.den

instance Float64.decLe (x y : Float64) : Decidable (x.le y) :=
  inferInstanceAs (Decidable (x.num * y.den ≤ y.num * x.den))

/-- Method `Duration.Hours` of package time:
`float64(d / Hour) + float64(d % Hour) / (60 * 60 * 1e9)`, the integer division
truncating toward zero. -/
def durationHours (d : Int) : Float64 :=
  let h := Int.tdiv d hour
  let nsec := Int.tmod d hour
  (Float64.ofInt h).add ((Float64.ofInt nsec).div (Float64.ofInt 3600000000000))

/-- Line 93 of `checkCertificate`:
`daysUntilExpiry := time.Until(expires).Hours() / 24`. -/
def daysUntilExpiry (now expires : Int) : Float64 :=
  (durationHours (timeUntil now expires)).div (Float64.ofInt 24)

/-! ## The environment and the trace of a run -/

/-- Constant `tls.VersionSSL30`. -/
def versionSSL30 : Nat := 0x0300

/-- Constant `tls.VersionTLS10`. -/
def versionTLS10 : Nat := 0x0301

/-- Constant `tls.VersionTLS11`. -/
def versionTLS11 : Nat := 0x0302

/-- Constant `tls.VersionTLS12`. -/
def versionTLS12 : Nat := 0x0303

/-- Constant `tls.VersionTLS13`. -/
def versionTLS13 : Nat := 0x0304

/-- The facts read from `PeerCertificates[0]`: the issuer as `%v` prints it and
`NotAfter` in nanoseconds since the epoch. -/
structure Cert where
  issuer : String
  notAfter : Int

/-- An established client connection (`*tls.Conn`): the answer of
`VerifyHostname` for each name (`none` is a nil error, `some e` the error
text), the negotiated version, and the leaf certificate.  A client connection
whose handshake verified the chain holds at least one peer certificate, so
`PeerCertificates[0]` exists whenever `VerifyHostname` returned nil. -/
structure Conn where
  verifyHostname : String → Option String
  version : Nat
  leaf : Cert

/-- An error returned by `tls.DialWithDialer`: whether it implements
`net.Error`, what its `Timeout()` answers, and its `%v` text. -/
structure DialError where
  isNetError : Bool
  timeout : Bool
  text : String
deriving DecidableEq, Repr

/-- The `net.Dialer` built on lines 33 to 43: its timeout, and the DNS server of
the custom resolver when one was installed. -/
structure Dialer where
  timeout : Int
  resolver : Option String
deriving DecidableEq, Repr

/-- The fields of `tls.Config` the program sets. -/
structure TLSConfig where
  serverName : String
  insecureSkipVerify : Bool
  minVersion : Nat
deriving DecidableEq, Repr

/-- Everything outside the program. -/
structure World where
  /-- Call `dialer.Resolver.LookupHost` through the DNS server `dnsServer`, the
  resolver dialling with `timeout`. -/
  lookupHost : (dnsServer : String) → (timeout : Int) → (host : String) →
    Except String (List String)
  /-- Call `tls.DialWithDialer(dialer, "tcp", target, config)`. -/
  dialWithDialer : Dialer → (target : String) → TLSConfig → Except DialError Conn
  /-- The clock read by `crypto/tls` when the handshake verifies the certificate
  chain. -/
  dialTime : Int
  /-- The clock read by `time.Until` on line 93, after the handshake. -/
  now : Int
  /-- Text of `expires.Format("2006-01-02")`. -/
  formatDate : Int → String
  /-- Text of `humanize.Time(expires)`. -/
  humanizeTime : Int → String
  /-- The `%v` text of a `time.Duration`. -/
  durationString : Int → String
  /-- Whether `net.SplitHostPort` returns a nil error. -/
  splitHostPortOk : String → Bool

/-- Text of `addr` before its last colon, when it has one. -/
def beforeLastColon : List Char → Option (List Char)
  | [] => none
  | c :: cs =>
    match beforeLastColon cs with
    | some host => some (c :: host)
    | none => if c = ':' then some [] else none

/-- Host part of a dial address as function `dial` of `crypto/tls` takes it:
`addr[:strings.LastIndex(addr, ":")]`, the whole address when it has no colon. -/
def hostOfAddr (addr : String) : String :=
  match beforeLastColon addr.data with
  | some host => String.mk host
  | none => addr

/-- The `ServerName` the handshake runs with (function `dial` of `crypto/tls`):
the configured one, or the host of the dial address when none is configured.
The SNI extension is derived from it and the certificate is verified against
it. -/
def handshakeServerName (config : TLSConfig) (target : String) : String :=
  if config.serverName = "" then hostOfAddr target else config.serverName

/-- What `crypto/tls` guarantees of a connection returned by
`tls.DialWithDialer` when `InsecureSkipVerify` is false: the handshake ran with
a non-empty `ServerName`, the leaf certificate is valid for that name, and it
had not expired when the chain was verified; the handshake precedes line 93. -/
def World.TlsContract (w : World) : Prop :=
  w.dialTime ≤ w.now ∧
  ∀ (d : Dialer) (target : String) (config : TLSConfig) (conn : Conn),
    w.dialWithDialer d target config = .ok conn → config.insecureSkipVerify = false →
      handshakeServerName config target ≠ "" ∧
      conn.verifyHostname (handshakeServerName config target) = none ∧
      w.dialTime ≤ conn.leaf.notAfter

/-- Position of the first `c` in `cs`. -/
def firstIndex (c : Char) : List Char → Option Nat
  | [] => none
  | x :: xs => if x = c then some 0 else (firstIndex c xs).map (· + 1)

/-- Position of the last `c` in `cs`. -/
def lastIndex (c : Char) : List Char → Option Nat
  | [] => none
  | x :: xs =>
    match lastIndex c xs with
    | some i => some (i + 1)
    | none => if x = c then some 0 else none

/-- Whether `net.SplitHostPort(hostport)` returns a nil error: there is a last
colon; a leading `[` needs its first `]` right before that colon; otherwise the
host has no other colon; and no further `[` or `]` occurs. -/
def splitHostPortOk (hostport : String) : Bool :=
  let cs := hostport.data
  match lastIndex ':' cs with
  | none => false
  | some i =>
    if cs.head? = some '[' then
      match firstIndex ']' cs with
      | none => false
      | some e =>
        if e + 1 = i then !(cs.drop 1).contains '[' && !(cs.drop (e + 1)).contains ']'
        else false
    else !(cs.take i).contains ':' && !cs.contains '[' && !cs.contains ']'

/-- Severity word of a status line. -/
inductive Level
  | OK
  | WARNING
  | CRITICAL
deriving DecidableEq, Repr

/-- The word as printed. -/
def Level.word : Level → String
  | .OK => "OK"
  | .WARNING => "WARNING"
  | .CRITICAL => "CRITICAL"

/-- A line written to standard output by one of the `fmt.Printf` calls. -/
inductive Line
  | status (level : Level) (server msg : String)
  | info (server msg : String)
deriving DecidableEq, Repr

/-- The text of a line: `SSL_CERT <LEVEL> <server>: <msg>` or
`SSL_CERT INFO <server>: <msg>`, newline included. -/
def Line.render : Line → String
  | .status level server msg => "SSL_CERT " ++ level.word ++ " " ++ server ++ ": " ++ msg ++ "\n"
  | .info server msg => "SSL_CERT INFO " ++ server ++ ": " ++ msg ++ "\n"

/-- Whether a line is a status line. -/
def Line.isStatus : Line → Bool
  | .status _ _ _ => true
  | .info _ _ => false

/-- What a run does that can be observed, each call with the answer it got. -/
inductive Event
  | lookupHost (dnsServer : String) (timeout : Int) (host : String)
      (result : Except String (List String))
  | dial (dialer : Dialer) (target : String) (config : TLSConfig)
      (result : Except DialError Conn)
  | verifyHostname (host : String) (result : Option String)
  | close
  | stdout (line : Line)
  | stderr (text : String)
  | exit (code : Int)

/-- State of the process: the events so far, the deferred calls of the running
function (last deferred first), and the exit code once `os.Exit` was called. -/
structure Proc where
  events : List Event := []
  deferred : List Event := []
  exitCode : Option Int := none

/-- Record an event. -/
def Proc.emit (p : Proc) (e : Event) : Proc :=
  { p with events := p.events ++ [e] }

/-- Call `fmt.Printf` with one of the program's formats. -/
def Proc.printf (p : Proc) (l : Line) : Proc := p.emit (.stdout l)

/-- Call `fmt.Fprintln(os.Stderr, text)`. -/
def Proc.eprintln (p : Proc) (text : String) : Proc := p.emit (.stderr (text ++ "\n"))

/-- Statement `defer f()`: the call is pushed, not run. -/
def Proc.defer (p : Proc) (e : Event) : Proc :=
  { p with deferred := e :: p.deferred }

/-- Call `os.Exit(code)`: the process ends at once; deferred calls are not run. -/
def Proc.osExit (p : Proc) (code : Int) : Proc :=
  { p with events := p.events ++ [.exit code], exitCode := some code }

/-- Return from the function: its deferred calls run, last deferred first,
unless the process has already ended. -/
def Proc.ret (p : Proc) : Proc :=
  match p.exitCode with
  | some _ => p
  | none => { p with events := p.events ++ p.deferred, deferred := [] }

/-- Lines written to standard output, in order. -/
def Proc.stdout (p : Proc) : List Line :=
  p.events.filterMap fun
    | .stdout l => some l
    | _ => none

/-- Texts written to the error stream, in order. -/
def Proc.stderr (p : Proc) : List String :=
  p.events.filterMap fun
    | .stderr t => some t
    | _ => none

/-- The dials made: dialer, target and TLS configuration of each. -/
def Proc.dials (p : Proc) : List (Dialer × String × TLSConfig) :=
  p.events.filterMap fun
    | .dial d t c _ => some (d, t, c)
    | _ => none

/-- The `ServerName` each handshake ran with. -/
def Proc.handshakeNames (p : Proc) : List String :=
  p.dials.map fun (_, target, config) => handshakeServerName config target

/-- The connections the dials returned. -/
def Proc.connections (p : Proc) : List Conn :=
  p.events.filterMap fun
    | .dial _ _ _ (.ok conn) => some conn
    | _ => none

/-- The errors the dials returned. -/
def Proc.dialErrors (p : Proc) : List DialError :=
  p.events.filterMap fun
    | .dial _ _ _ (.error err) => some err
    | _ => none

/-- The DNS lookups made: DNS server, timeout and name of each. -/
def Proc.lookups (p : Proc) : List (String × Int × String) :=
  p.events.filterMap fun
    | .lookupHost s t h _ => some (s, t, h)
    | _ => none

/-- Whether a DNS lookup returned an error or an empty address list. -/
def Proc.lookupFailed (p : Proc) : Bool :=
  p.events.any fun
    | .lookupHost _ _ _ (.error _) => true
    | .lookupHost _ _ _ (.ok []) => true
    | _ => false

/-- The names passed to `VerifyHostname`. -/
def Proc.verifiedNames (p : Proc) : List String :=
  p.events.filterMap fun
    | .verifyHostname h _ => some h
    | _ => none

/-- Whether a call of `VerifyHostname` returned a nil error. -/
def Proc.verified (p : Proc) : Bool :=
  p.events.any fun
    | .verifyHostname _ none => true
    | _ => false

/-- Whether a call of `VerifyHostname` returned an error. -/
def Proc.verifyFailed (p : Proc) : Bool :=
  p.events.any fun
    | .verifyHostname _ (some _) => true
    | _ => false

/-- Whether `conn.Close` was performed. -/
def Proc.closed (p : Proc) : Bool :=
  p.events.any fun
    | .close => true
    | _ => false

/-! ## The program -/

/-- Function `tlsVersionToString` (lines 116 to 131). -/
def tlsVersionToString (version : Nat) : String :=
  if version = versionSSL30 then "SSLv3"
  else if version = versionTLS10 then "TLS 1.0"
  else if version = versionTLS11 then "TLS 1.1"
  else if version = versionTLS12 then "TLS 1.2"
  else if version = versionTLS13 then "TLS 1.3"
  else "Unknown (0x" ++ String.mk (Nat.toDigits 16 version) ++ ")"

/-- Message of the three verdict lines (lines 101, 105 and 109). -/
def expiryMessage (w : World) (cert : Cert) : String :=
  "valid, expires on " ++ w.formatDate cert.notAfter ++ " (" ++
    w.humanizeTime cert.notAfter ++ "), issuer: " ++ cert.issuer

/-- Message of the timeout branch (line 72). -/
def timeoutMessage (w : World) (timeout : Int) (target : String) : String :=
  "TCP connection timeout after " ++ w.durationString timeout ++ " to " ++ target

/-- Message of the generic dial failure branch (line 75). -/
def connectMessage (target cause : String) : String :=
  "failed to connect to " ++ target ++ ": " ++ cause

/-- The `tls.Config` literal of lines 64 to 68: SNI name `server`, verification
on, every version from SSLv3 accepted. -/
def tlsConfig (server : String) : TLSConfig :=
  { serverName := server, insecureSkipVerify := false, minVersion := versionSSL30 }

/-- Lines 63 to 112 of `checkCertificate`: dial, verify the hostname, classify
the expiry.  `p` is the state reached so far, `dialer` and `target` the values
those variables hold at line 64. -/
def dialAndClassify (w : World) (p : Proc) (dialer : Dialer) (server : String)
    (warnDays critDays : Int) (target : String) (timeout : Int) : Proc :=
  let config := tlsConfig server
  let r := w.dialWithDialer dialer target config
  let p := p.emit (.dial dialer target config r)
  match r with
  | .error err =>
    if err.isNetError && err.timeout then
      (p.printf (.status .CRITICAL server (timeoutMessage w timeout target))).osExit 2
    else
      (p.printf (.status .CRITICAL server (connectMessage target err.text))).osExit 2
  | .ok conn =>
    let p := p.defer .close
    let v := conn.verifyHostname server
    let p := p.emit (.verifyHostname server v)
    match v with
    | some err =>
      (p.printf (.status .CRITICAL server
        ("hostname verification failed for " ++ target ++ ": " ++ err))).osExit 2
    | none =>
      let cert := conn.leaf
      let days := daysUntilExpiry w.now cert.notAfter
      let tlsVersion := tlsVersionToString conn.version
      let p := p.printf (.info server ("negotiated TLS version " ++ tlsVersion))
      if days.le (Float64.ofInt critDays) then
        (p.printf (.status .CRITICAL server (expiryMessage w cert))).osExit 2
      else if days.le (Float64.ofInt warnDays) then
        (p.printf (.status .WARNING server (expiryMessage w cert))).osExit 1
      else
        (p.printf (.status .OK server (expiryMessage w cert))).osExit 0

/-- Function `checkCertificate` (lines 24 to 113). -/
def checkCertificate (w : World) (server : String) (warnDays critDays port : Int)
    (ipAddress dnsServer : String) (timeout : Int) : Proc :=
  let p : Proc := {}
  let ipAddress := if ipAddress = "" then server else ipAddress
  let target := ipAddress ++ ":" ++ toString port
  let dialer : Dialer := { timeout := timeout, resolver := none }
  Proc.ret <|
    if dnsServer ≠ "" then
      let dialer := { dialer with resolver := some dnsServer }
      let r := w.lookupHost dnsServer timeout server
      let p := p.emit (.lookupHost dnsServer timeout server r)
      match r with
      | .error err =>
        (p.printf (.status .CRITICAL server
          ("failed to resolve " ++ server ++ " using DNS server " ++ dnsServer ++ ": " ++ err))).osExit 2
      | .ok [] =>
        (p.printf (.status .CRITICAL server
          ("no IP addresses resolved for " ++ server ++ " using DNS server " ++ dnsServer))).osExit 2
      | .ok (addr :: _) =>
        if ipAddress = server then
          dialAndClassify w p dialer server warnDays critDays (addr ++ ":" ++ toString port) timeout
        else
          dialAndClassify w p dialer server warnDays critDays target timeout
    else
      dialAndClassify w p dialer server warnDays critDays target timeout

/-- The values of the command-line flags after `flag.Parse` (lines 135 to 143). -/
structure Flags where
  critDays : Int := 7
  warnDays : Int := 14
  port : Int := 443
  hostname : String := "localhost"
  ipAddress : String := ""
  timeoutSec : Int := 30
  dnsServer : String := ""

/-- Line 163: `time.Duration(*timeoutSec) * time.Second`, an int64 product. -/
def connectTimeout (timeoutSec : Int) : Int := wrapInt64 (timeoutSec * second)

/-- Function `main` from line 145 on, given the parsed flags. -/
def main (w : World) (f : Flags) : Proc :=
  let p : Proc := {}
  Proc.ret <|
    if f.warnDays ≤ f.critDays then
      (p.eprintln "Error: warning threshold must be greater than critical threshold").osExit 1
    else if f.timeoutSec ≤ 0 then
      (p.eprintln "Error: timeout must be a positive number of seconds").osExit 1
    else if f.dnsServer ≠ "" && !w.splitHostPortOk f.dnsServer then
      (p.eprintln
        "Error: invalid DNS server format, expected host:port (e.g., 8.8.8.8:53)").osExit 1
    else
      let timeout := connectTimeout f.timeoutSec
      checkCertificate w f.hostname f.warnDays f.critDays f.port f.ipAddress f.dnsServer timeout

/-! ## Case descriptions of a run -/

/-- The six ways lines 63 to 112 can run from the events `pre`, each with the
full resulting state `p`: dial timeout, other dial failure, hostname
verification failure, and the three verdicts. -/
def DialOutcome (w : World) (pre : List Event) (dialer : Dialer) (server : String)
    (warnDays critDays : Int) (target : String) (timeout : Int) (p : Proc) : Prop :=
    (∃ err, w.dialWithDialer dialer target (tlsConfig server) = .error err ∧
      (err.isNetError && err.timeout) = true ∧
      p = ⟨pre ++ [.dial dialer target (tlsConfig server) (.error err),
        .stdout (.status .CRITICAL server (timeoutMessage w timeout target)), .exit 2], [], some 2⟩) ∨
    (∃ err, w.dialWithDialer dialer target (tlsConfig server) = .error err ∧
      (err.isNetError && err.timeout) = false ∧
      p = ⟨pre ++ [.dial dialer target (tlsConfig server) (.error err),
        .stdout (.status .CRITICAL server (connectMessage target err.text)), .exit 2], [], some 2⟩) ∨
    (∃ conn e, w.dialWithDialer dialer target (tlsConfig server) = .ok conn ∧
      conn.verifyHostname server = some e ∧
      p = ⟨pre ++ [.dial dialer target (tlsConfig server) (.ok conn), .verifyHostname server (some e),
        .stdout (.status .CRITICAL server
          ("hostname verification failed for " ++ target ++ ": " ++ e)), .exit 2],
        [.close], some 2⟩) ∨
    (∃ conn, w.dialWithDialer dialer target (tlsConfig server) = .ok conn ∧
      conn.verifyHostname server = none ∧
      (daysUntilExpiry w.now conn.leaf.notAfter).le (Float64.ofInt critDays) ∧
      p = ⟨pre ++ [.dial dialer target (tlsConfig server) (.ok conn), .verifyHostname server none,
        .stdout (.info server ("negotiated TLS version " ++ tlsVersionToString conn.version)),
        .stdout (.status .CRITICAL server (expiryMessage w conn.leaf)), .exit 2],
        [.close], some 2⟩) ∨
    (∃ conn, w.dialWithDialer dialer target (tlsConfig server) = .ok conn ∧
      conn.verifyHostname server = none ∧
      ¬ (daysUntilExpiry w.now conn.leaf.notAfter).le (Float64.ofInt critDays) ∧
      (daysUntilExpiry w.now conn.leaf.notAfter).le (Float64.ofInt warnDays) ∧
      p = ⟨pre ++ [.dial dialer target (tlsConfig server) (.ok conn), .verifyHostname server none,
        .stdout (.info server ("negotiated TLS version " ++ tlsVersionToString conn.version)),
        .stdout (.status .WARNING server (expiryMessage w conn.leaf)), .exit 1],
        [.close], some 1⟩) ∨
    (∃ conn, w.dialWithDialer dialer target (tlsConfig server) = .ok conn ∧
      conn.verifyHostname server = none ∧
      ¬ (daysUntilExpiry w.now conn.leaf.notAfter).le (Float64.ofInt critDays) ∧
      ¬ (daysUntilExpiry w.now conn.leaf.notAfter).le (Float64.ofInt warnDays) ∧
      p = ⟨pre ++ [.dial dialer target (tlsConfig server) (.ok conn), .verifyHostname server none,
        .stdout (.info server ("negotiated TLS version " ++ tlsVersionToString conn.version)),
        .stdout (.status .OK server (expiryMessage w conn.leaf)), .exit 0],
        [.close], some 0⟩)

/-- The values of the events so far, of `dialer` and of `target` when line 64 is
reached: without a DNS server, or after a lookup that returned an address. -/
def ReachesDial (w : World) (server : String) (port : Int) (ipAddress dnsServer : String)
    (timeout : Int) (pre : List Event) (dialer : Dialer) (target : String) : Prop :=
  let ip := if ipAddress = "" then server else ipAddress
  (dnsServer = "" ∧ pre = [] ∧ dialer = ⟨timeout, none⟩ ∧
    target = ip ++ ":" ++ toString port) ∨
  (∃ addr rest, dnsServer ≠ "" ∧
    w.lookupHost dnsServer timeout server = .ok (addr :: rest) ∧
    pre = [.lookupHost dnsServer timeout server (.ok (addr :: rest))] ∧
    dialer = ⟨timeout, some dnsServer⟩ ∧
    target = (if ip = server then addr else ip) ++ ":" ++ toString port)

/-! ## Worlds used to evaluate the program -/

/-- A certificate issued by "Example CA" that expires at `notAfter`. -/
def certExpiring (notAfter : Int) : Cert := { issuer := "CN=Example CA", notAfter := notAfter }

/-- A TLS 1.3 connection whose certificate is valid for the names in `names`
(and, like every certificate, not for the empty name); the error of
`VerifyHostname` has the text of an `x509.HostnameError`. -/
def connFor (names : List String) (notAfter : Int) : Conn :=
  { verifyHostname := fun h =>
      if h ≠ "" ∧ h ∈ names then none
      else some ("x509: certificate is valid for " ++ ", ".intercalate names ++ ", not " ++ h)
    version := versionTLS13
    leaf := certExpiring notAfter }

/-- A world in which every name resolves to `93.184.216.34` and every dial
reaches a server presenting a certificate valid for `names` that expires at
`notAfter`.  The handshake reads the clock at `dialTime` and, as `crypto/tls`
does with `InsecureSkipVerify` false, fails when no `ServerName` can be
determined, when the certificate has expired, or when it is not valid for the
`ServerName` of the handshake; line 93 reads the clock at `now`. -/
def worldWith (names : List String) (dialTime now notAfter : Int) : World :=
  { lookupHost := fun _ _ _ => .ok ["93.184.216.34"]
    dialWithDialer := fun _ target config =>
      if config.insecureSkipVerify then .ok (connFor names notAfter)
      else if handshakeServerName config target = "" then
        .error { isNetError := false, timeout := false,
                 text := "tls: either ServerName or InsecureSkipVerify must be specified" }
      else if notAfter < dialTime then
        .error { isNetError := false, timeout := false,
                 text := "tls: failed to verify certificate: " ++
                   "x509: certificate has expired or is not yet valid" }
      else
        match (connFor names notAfter).verifyHostname (handshakeServerName config target) with
        | some e =>
          .error { isNetError := false, timeout := false,
                   text := "tls: failed to verify certificate: " ++ e }
        | none => .ok (connFor names notAfter)
    dialTime := dialTime
    now := now
    formatDate := fun _ => "2030-01-01"
    humanizeTime := fun _ => "3 years from now"
    durationString := fun _ => "30s"
    splitHostPortOk := splitHostPortOk }

/-- The world `worldWith` of a server for `example.com`, the handshake and
line 93 reading the same clock value `now`. -/
def worldServing (now notAfter : Int) : World :=
  worldWith ["example.com"] now now notAfter

/-- A world in which the resolver answers with an error and every dial is
refused. -/
def worldDown : World :=
  { worldServing 0 0 with
    lookupHost := fun _ _ _ => .error "lookup example.com: no such host"
    dialWithDialer := fun _ _ _ =>
      .error { isNetError := true, timeout := false, text := "connection refused" } }

/-- A world in which every dial fails with the error `err`. -/
def worldFailing (err : DialError) : World :=
  { worldServing 0 0 with dialWithDialer := fun _ _ _ => .error err }

/-- A clock reading used in the examples: 1700000000 seconds after the epoch. -/
def clock : Int := 1700000000000000000

/-- The world `w` with the `NotAfter` of every served leaf certificate replaced
by `t`; nothing else changes. -/
def World.withNotAfter (w : World) (t : Int) : World :=
  { w with
    dialWithDialer := fun d target c =>
      match w.dialWithDialer d target c with
      | .error err => .error err
      | .ok conn => .ok { conn with leaf := { conn.leaf with notAfter := t } } }

/-- Nanoseconds in a day. -/
def day : Int := 86400000000000

/-- The remaining lifetime in days as an exact fraction, `(notAfter - now) / 24h`,
with no rounding and no int64 bound. -/
def exactDays (now notAfter : Int) : ℚ := ((notAfter - now : Int) : ℚ) / 86400000000000

/-- The rounding margin of the verdict, in days: 2 microseconds. -/
def roundingMargin : ℚ := 2000 / 86400000000000

/-! ## Basic facts about runs -/

@[simp] theorem Proc.ret_osExit (p : Proc) (c : Int) : (p.osExit c).ret = p.osExit c := rfl

@[simp] theorem Proc.events_osExit (p : Proc) (c : Int) :
    (p.osExit c).events = p.events ++ [.exit c] := rfl

@[simp] theorem Proc.exitCode_osExit (p : Proc) (c : Int) :
    (p.osExit c).exitCode = some c := rfl

@[simp] theorem Proc.events_emit (p : Proc) (e : Event) :
    (p.emit e).events = p.events ++ [e] := rfl

@[simp] theorem Proc.events_printf (p : Proc) (l : Line) :
    (p.printf l).events = p.events ++ [.stdout l] := rfl

@[simp] theorem Proc.events_eprintln (p : Proc) (t : String) :
    (p.eprintln t).events = p.events ++ [.stderr (t ++ "\n")] := rfl

@[simp] theorem Proc.events_defer (p : Proc) (e : Event) :
    (p.defer e).events = p.events := rfl

@[simp] theorem Proc.events_mk_nil : ({} : Proc).events = [] := rfl

/-- The ways `checkCertificate` reaches line 63, or ends before it. -/
theorem checkCertificate_paths (w : World) (server : String) (warnDays critDays port : Int)
    (ipAddress dnsServer : String) (timeout : Int) :
    let p := checkCertificate w server warnDays critDays port ipAddress dnsServer timeout
    let ip := if ipAddress = "" then server else ipAddress
    let look := w.lookupHost dnsServer timeout server
    (∃ e, dnsServer ≠ "" ∧ look = .error e ∧
      p = ⟨[.lookupHost dnsServer timeout server (.error e),
        .stdout (.status .CRITICAL server
          ("failed to resolve " ++ server ++ " using DNS server " ++ dnsServer ++ ": " ++ e)),
        .exit 2], [], some 2⟩) ∨
    (dnsServer ≠ "" ∧ look = .ok [] ∧
      p = ⟨[.lookupHost dnsServer timeout server (.ok []),
        .stdout (.status .CRITICAL server
          ("no IP addresses resolved for " ++ server ++ " using DNS server " ++ dnsServer)),
        .exit 2], [], some 2⟩) ∨
    (∃ addr rest, dnsServer ≠ "" ∧ look = .ok (addr :: rest) ∧
      p = (dialAndClassify w ⟨[.lookupHost dnsServer timeout server (.ok (addr :: rest))], [], none⟩
        ⟨timeout, some dnsServer⟩ server warnDays critDays
        ((if ip = server then addr else ip) ++ ":" ++ toString port) timeout).ret) ∨
    (dnsServer = "" ∧
      p = (dialAndClassify w ⟨[], [], none⟩ ⟨timeout, none⟩ server warnDays critDays
        (ip ++ ":" ++ toString port) timeout).ret) := by
  intro p ip look
  simp only [p, ip, look, checkCertificate]
  by_cases hdns : dnsServer = ""
  · right; right; right
    simp [hdns]
  · cases hl : w.lookupHost dnsServer timeout server with
    | error e =>
      left
      exact ⟨e, hdns, rfl, by simp [hdns, hl, Proc.emit, Proc.printf, Proc.osExit, Proc.ret]⟩
    | ok addrs =>
      cases addrs with
      | nil =>
        right; left
        exact ⟨hdns, rfl, by simp [hdns, hl, Proc.emit, Proc.printf, Proc.osExit, Proc.ret]⟩
      | cons addr rest =>
        right; right; left
        refine ⟨addr, rest, hdns, rfl, ?_⟩
        by_cases hip : (if ipAddress = "" then server else ipAddress) = server
        · simp [hdns, hl, hip, Proc.emit]
        · simp [hdns, hl, hip, Proc.emit]

theorem dialAndClassify_cases (w : World) (pre : List Event) (dialer : Dialer) (server : String)
    (warnDays critDays : Int) (target : String) (timeout : Int) :
    DialOutcome w pre dialer server warnDays critDays target timeout
      (dialAndClassify w ⟨pre, [], none⟩ dialer server warnDays critDays target timeout) := by
  simp only [DialOutcome, dialAndClassify]
  cases hd : w.dialWithDialer dialer target (tlsConfig server) with
  | error err =>
    cases ht : (err.isNetError && err.timeout) with
    | true =>
      left
      simp_all [Proc.emit, Proc.printf, Proc.osExit]
    | false =>
      right; left
      simp_all [Proc.emit, Proc.printf, Proc.osExit]
  | ok conn =>
    right; right
    cases hv : conn.verifyHostname server with
    | some e =>
      left
      simp [hv, Proc.emit, Proc.printf, Proc.osExit, Proc.defer]
    | none =>
      right
      by_cases hc : (daysUntilExpiry w.now conn.leaf.notAfter).le (Float64.ofInt critDays)
      · left
        simp [hv, hc, Proc.emit, Proc.printf, Proc.osExit, Proc.defer]
      · right
        by_cases hw : (daysUntilExpiry w.now conn.leaf.notAfter).le (Float64.ofInt warnDays)
        · left
          simp [hv, hc, hw, Proc.emit, Proc.printf, Proc.osExit, Proc.defer]
        · right
          simp [hv, hc, hw, Proc.emit, Proc.printf, Proc.osExit, Proc.defer]



theorem DialOutcome.ret_eq {w : World} {pre : List Event} {dialer : Dialer} {server : String}
    {warnDays critDays : Int} {target : String} {timeout : Int} {p : Proc}
    (h : DialOutcome w pre dialer server warnDays critDays target timeout p) : p.ret = p := by
  rcases h with ⟨_, _, _, hp⟩ | ⟨_, _, _, hp⟩ | ⟨_, _, _, _, hp⟩ | ⟨_, _, _, _, hp⟩ |
    ⟨_, _, _, _, _, hp⟩ | ⟨_, _, _, _, _, hp⟩ <;> subst hp <;> rfl

/-- Every run of `checkCertificate` is one of: lookup error, empty lookup, or a
run of lines 63 to 112 from one of the two ways of reaching them. -/
theorem checkCertificate_outcomes (w : World) (server : String) (warnDays critDays port : Int)
    (ipAddress dnsServer : String) (timeout : Int) :
    let p := checkCertificate w server warnDays critDays port ipAddress dnsServer timeout
    (∃ e, dnsServer ≠ "" ∧ w.lookupHost dnsServer timeout server = .error e ∧
      p = ⟨[.lookupHost dnsServer timeout server (.error e),
        .stdout (.status .CRITICAL server
          ("failed to resolve " ++ server ++ " using DNS server " ++ dnsServer ++ ": " ++ e)),
        .exit 2], [], some 2⟩) ∨
    (dnsServer ≠ "" ∧ w.lookupHost dnsServer timeout server = .ok [] ∧
      p = ⟨[.lookupHost dnsServer timeout server (.ok []),
        .stdout (.status .CRITICAL server
          ("no IP addresses resolved for " ++ server ++ " using DNS server " ++ dnsServer)),
        .exit 2], [], some 2⟩) ∨
    (∃ pre dialer target, ReachesDial w server port ipAddress dnsServer timeout pre dialer target ∧
      DialOutcome w pre dialer server warnDays critDays target timeout p) := by
  intro p
  rcases checkCertificate_paths w server warnDays critDays port ipAddress dnsServer timeout with
    ⟨e, hdns, hl, hp⟩ | ⟨hdns, hl, hp⟩ | ⟨addr, rest, hdns, hl, hp⟩ | ⟨hdns, hp⟩
  · exact Or.inl ⟨e, hdns, hl, hp⟩
  · exact Or.inr (Or.inl ⟨hdns, hl, hp⟩)
  · right; right
    have hc := dialAndClassify_cases w
      [.lookupHost dnsServer timeout server (.ok (addr :: rest))] ⟨timeout, some dnsServer⟩ server
      warnDays critDays
      ((if (if ipAddress = "" then server else ipAddress) = server then addr
        else (if ipAddress = "" then server else ipAddress)) ++ ":" ++ toString port) timeout
    rw [hc.ret_eq] at hp
    refine ⟨_, _, _, Or.inr ⟨addr, rest, hdns, hl, rfl, rfl, rfl⟩, ?_⟩
    show DialOutcome _ _ _ _ _ _ _ _ (checkCertificate _ _ _ _ _ _ _ _)
    rw [hp]; exact hc
  · right; right
    have hc := dialAndClassify_cases w [] ⟨timeout, none⟩ server warnDays critDays
      ((if ipAddress = "" then server else ipAddress) ++ ":" ++ toString port) timeout
    rw [hc.ret_eq] at hp
    refine ⟨_, _, _, Or.inl ⟨hdns, rfl, rfl, rfl⟩, ?_⟩
    show DialOutcome _ _ _ _ _ _ _ _ (checkCertificate _ _ _ _ _ _ _ _)
    rw [hp]; exact hc

/-- A run of `checkCertificate` writes nothing to the error stream, writes at
least one line to standard output, ends in `os.Exit`, and never performs the
deferred `conn.Close`. -/
theorem checkCertificate_streams (w : World) (server : String) (warnDays critDays port : Int)
    (ipAddress dnsServer : String) (timeout : Int) :
    let p := checkCertificate w server warnDays critDays port ipAddress dnsServer timeout
    p.stderr = [] ∧ p.stdout ≠ [] ∧ p.exitCode ≠ none ∧ p.closed = false := by
  intro p
  simp only [p]
  clear p
  generalize hp : checkCertificate w server warnDays critDays port ipAddress dnsServer timeout = p
  have hc := checkCertificate_outcomes w server warnDays critDays port ipAddress dnsServer timeout
  simp only [hp] at hc
  rcases hc with ⟨e, _, _, rfl⟩ | ⟨_, _, rfl⟩ | ⟨pre, dialer, target, hr, ho⟩
  · simp [Proc.stderr, Proc.stdout, Proc.closed]
  · simp [Proc.stderr, Proc.stdout, Proc.closed]
  · rcases hr with ⟨_, rfl, rfl, rfl⟩ | ⟨addr, rest, _, _, rfl, rfl, rfl⟩ <;>
    rcases ho with ⟨_, _, _, rfl⟩ | ⟨_, _, _, rfl⟩ | ⟨_, _, _, _, rfl⟩ | ⟨_, _, _, _, rfl⟩ |
      ⟨_, _, _, _, _, rfl⟩ | ⟨_, _, _, _, _, rfl⟩ <;>
    simp [Proc.stderr, Proc.stdout, Proc.closed]

/-- With a DNS server whose lookup returned `addr` first, the dial target is
`addr:port` when the override is empty or equal to the hostname, and
`ipAddress:port` otherwise. -/
theorem checkCertificate_custom_dns_target (w : World) (server : String)
    (warnDays critDays port : Int) (ipAddress dnsServer : String) (timeout : Int)
    (addr : String) (rest : List String) (hdns : dnsServer ≠ "")
    (hl : w.lookupHost dnsServer timeout server = .ok (addr :: rest)) :
    (checkCertificate w server warnDays critDays port ipAddress dnsServer timeout).dials =
      [(⟨timeout, some dnsServer⟩,
        (if ipAddress = "" ∨ ipAddress = server then addr else ipAddress) ++ ":" ++ toString port,
        tlsConfig server)] := by
  generalize hp : checkCertificate w server warnDays critDays port ipAddress dnsServer timeout = p
  have hc := checkCertificate_outcomes w server warnDays critDays port ipAddress dnsServer timeout
  simp only [hp] at hc
  rcases hc with ⟨e, _, h, rfl⟩ | ⟨_, h, rfl⟩ | ⟨pre, dialer, target, hr, ho⟩
  · rw [hl] at h; cases h
  · rw [hl] at h; cases h
  · rcases hr with ⟨h, rfl, rfl, rfl⟩ | ⟨addr2, rest2, _, h, rfl, rfl, rfl⟩
    · exact absurd h hdns
    · rw [hl] at h
      cases h
      have htarget : (if (if ipAddress = "" then server else ipAddress) = server then addr
          else (if ipAddress = "" then server else ipAddress)) =
          (if ipAddress = "" ∨ ipAddress = server then addr else ipAddress) := by
        by_cases h1 : ipAddress = "" <;> by_cases h2 : ipAddress = server <;> simp [h1, h2]
      rw [htarget] at ho
      rcases ho with ⟨_, _, _, rfl⟩ | ⟨_, _, _, rfl⟩ | ⟨_, _, _, _, rfl⟩ | ⟨_, _, _, _, rfl⟩ |
        ⟨_, _, _, _, _, rfl⟩ | ⟨_, _, _, _, _, rfl⟩ <;>
      simp [Proc.dials]

/-! ## Signs of float64 results -/

theorem roundQuot_mant_nonneg (n : Int) (d : Nat) (h : 0 ≤ n) : 0 ≤ (roundQuot n d).mant := by
  unfold roundQuot
  split
  · exact le_refl _
  · show 0 ≤ (if n < 0 then _ else _)
    rw [if_neg (not_lt.mpr h)]
    exact Int.ofNat_nonneg _

theorem roundQuot_mant_nonpos (n : Int) (d : Nat) (h : n ≤ 0) : (roundQuot n d).mant ≤ 0 := by
  unfold roundQuot
  split
  · exact le_refl _
  · rename_i hn
    have hlt : n < 0 := by omega
    show (if n < 0 then _ else _) ≤ (0 : Int)
    rw [if_pos hlt]
    exact neg_nonpos.mpr (Int.ofNat_nonneg _)

theorem Float64.num_nonneg (x : Float64) (h : 0 ≤ x.mant) : 0 ≤ x.num := by
  unfold Float64.num
  split_ifs
  · positivity
  · exact h

theorem Float64.num_nonpos (x : Float64) (h : x.mant ≤ 0) : x.num ≤ 0 := by
  unfold Float64.num
  split_ifs
  · exact mul_nonpos_of_nonpos_of_nonneg h (by positivity)
  · exact h

theorem Float64.le_of_signs (x y : Float64) (hx : x.num ≤ 0) (hy : 0 ≤ y.num) : x.le y := by
  unfold Float64.le
  have h1 : x.num * (y.den : Int) ≤ 0 := mul_nonpos_of_nonpos_of_nonneg hx (by positivity)
  have h2 : 0 ≤ y.num * (x.den : Int) := mul_nonneg hy (by positivity)
  exact le_trans h1 h2

theorem Float64.ofInt_num_nonneg (i : Int) (h : 0 ≤ i) : 0 ≤ (Float64.ofInt i).num :=
  Float64.num_nonneg _ (roundQuot_mant_nonneg _ _ h)

theorem Float64.ofInt_num_nonpos (i : Int) (h : i ≤ 0) : (Float64.ofInt i).num ≤ 0 :=
  Float64.num_nonpos _ (roundQuot_mant_nonpos _ _ h)

theorem Float64.div_num_nonpos (x y : Float64) (hx : x.num ≤ 0) (hy : 0 < y.num) :
    (x.div y).num ≤ 0 := by
  apply Float64.num_nonpos
  apply roundQuot_mant_nonpos
  rw [if_neg (not_lt.mpr hy.le)]
  exact mul_nonpos_of_nonpos_of_nonneg hx (by positivity)

theorem Float64.add_num_nonpos (x y : Float64) (hx : x.num ≤ 0) (hy : y.num ≤ 0) :
    (x.add y).num ≤ 0 := by
  apply Float64.num_nonpos
  apply roundQuot_mant_nonpos
  have h1 : x.num * (y.den : Int) ≤ 0 := mul_nonpos_of_nonpos_of_nonneg hx (by positivity)
  have h2 : y.num * (x.den : Int) ≤ 0 := mul_nonpos_of_nonpos_of_nonneg hy (by positivity)
  omega

theorem tdiv_nonpos_of_nonpos (d b : Int) (h : d ≤ 0) (hb : 0 ≤ b) : Int.tdiv d b ≤ 0 := by
  have h1 : d = -(-d) := by omega
  rw [h1, Int.neg_tdiv]
  have := Int.tdiv_nonneg (a := -d) (b := b) (by omega) hb
  omega

theorem tmod_nonpos_of_nonpos (d b : Int) (h : d ≤ 0) : Int.tmod d b ≤ 0 := by
  have h2 := Int.tmod_nonneg (a := -d) b (by omega)
  rw [Int.tmod_def, Int.neg_tdiv] at h2
  rw [Int.tmod_def]
  have : b * -(d.tdiv b) = -(b * d.tdiv b) := by ring
  omega

theorem durationHours_nonpos (d : Int) (h : d ≤ 0) : (durationHours d).num ≤ 0 := by
  unfold durationHours
  simp only
  apply Float64.add_num_nonpos
  · exact Float64.ofInt_num_nonpos _ (tdiv_nonpos_of_nonpos d hour h (by decide))
  · exact Float64.div_num_nonpos _ _ (Float64.ofInt_num_nonpos _ (tmod_nonpos_of_nonpos d hour h))
      (by decide)

theorem timeUntil_nonpos (now t : Int) (h : t < now) : timeUntil now t ≤ 0 := by
  unfold timeUntil timeSub minDuration maxDuration
  split_ifs <;> omega

/-- An expired certificate is at or below every non-negative threshold: the
computed `daysUntilExpiry` is not positive and `float64(critDays)` is not
negative. -/
theorem daysUntilExpiry_le_of_expired (now t crit : Int) (h : t < now) (hc : 0 ≤ crit) :
    (daysUntilExpiry now t).le (Float64.ofInt crit) := by
  apply Float64.le_of_signs
  · unfold daysUntilExpiry
    exact Float64.div_num_nonpos _ _ (durationHours_nonpos _ (timeUntil_nonpos _ _ h)) (by decide)
  · exact Float64.ofInt_num_nonneg _ hc

/-! ## Rounding does not pass an integer -/

theorem roundHalfEven_le (a b k : Nat) (hb : 0 < b) (h : a ≤ k * b) : roundHalfEven a b ≤ k := by
  unfold roundHalfEven
  simp only
  have hq : a / b ≤ k := by
    calc a / b ≤ (k * b) / b := Nat.div_le_div_right h
      _ = k := Nat.mul_div_cancel k hb
  have hdm := Nat.div_add_mod a b
  rcases Nat.lt_or_ge (a / b) k with hlt | hge
  · split_ifs <;> omega
  · have hqk : a / b = k := le_antisymm hq hge
    have hr : a % b = 0 := by
      rw [hqk] at hdm
      have h2 : b * k = k * b := Nat.mul_comm _ _
      omega
    rw [hr, hqk]
    simp [hb]

theorem le_roundHalfEven (a b k : Nat) (hb : 0 < b) (h : k * b ≤ a) : k ≤ roundHalfEven a b := by
  unfold roundHalfEven
  simp only
  have hq : k ≤ a / b := (Nat.le_div_iff_mul_le hb).mpr h
  split_ifs <;> omega

theorem log2Floor_spec (fuel n : Nat) (hf : n ≤ fuel) (hn : 0 < n) :
    2 ^ log2Floor fuel n ≤ n ∧ n < 2 ^ (log2Floor fuel n + 1) := by
  induction fuel generalizing n with
  | zero => omega
  | succ f ih =>
    unfold log2Floor
    split_ifs with h2
    · constructor <;> simp <;> omega
    · have hpos : 0 < n / 2 := by omega
      have hle : n / 2 ≤ f := by omega
      obtain ⟨h1, h3⟩ := ih (n / 2) hle hpos
      constructor
      · rw [pow_succ]; omega
      · rw [pow_succ]; omega


theorem floorLog2Quot_lower (a d : Nat) (ha : 0 < a) (hd : 0 < d)
    (hl : 0 ≤ floorLog2Quot a d) : d * 2 ^ (floorLog2Quot a d).toNat ≤ a := by
  obtain ⟨ha1, _⟩ := log2Floor_spec a a (le_refl _) ha
  obtain ⟨_, hd2⟩ := log2Floor_spec d d (le_refl _) hd
  unfold floorLog2Quot at hl ⊢
  simp only at hl ⊢
  split_ifs at hl ⊢ with hk h1 h2
  · exact h1
  · have hk1 : (1 : Int) ≤ (log2Floor a a : Int) - (log2Floor d d : Int) := by omega
    have hle : log2Floor d d + 1 ≤ log2Floor a a := by omega
    have ht : ((log2Floor a a : Int) - (log2Floor d d : Int) - 1).toNat =
        log2Floor a a - (log2Floor d d + 1) := by omega
    rw [ht]
    have hpow : 2 ^ (log2Floor d d + 1) * 2 ^ (log2Floor a a - (log2Floor d d + 1)) =
        2 ^ log2Floor a a := by
      rw [← pow_add]; congr 1; omega
    have : d * 2 ^ (log2Floor a a - (log2Floor d d + 1)) ≤
        2 ^ (log2Floor d d + 1) * 2 ^ (log2Floor a a - (log2Floor d d + 1)) :=
      Nat.mul_le_mul_right _ hd2.le
    omega
  · omega
  · omega


/-- Magnitude part of `roundQuot`, upper side: rounding `a / d ≤ Y` does not
pass the integer `Y ≤ 2 ^ 53`. -/
theorem roundMant_le (a d Y : Nat) (ha : 0 < a) (hd : 0 < d) (hY : Y ≤ 2 ^ 53)
    (h : a ≤ Y * d) :
    (if 0 ≤ quantumExp a d then roundMant a d * 2 ^ (quantumExp a d).toNat else roundMant a d) ≤
      Y * (if 0 ≤ quantumExp a d then 1 else 2 ^ (-quantumExp a d).toNat) := by
  by_cases he : 0 ≤ quantumExp a d
  · simp only [if_pos he, mul_one]
    have hl : 52 ≤ floorLog2Quot a d := by
      unfold quantumExp at he
      simp only at he
      split_ifs at he <;> omega
    have hq : quantumExp a d = floorLog2Quot a d - 52 := by
      unfold quantumExp
      simp only
      rw [if_neg (by omega)]
    have hlow := floorLog2Quot_lower a d ha hd (by omega)
    have hpow : 2 ^ (floorLog2Quot a d).toNat ≤ 2 ^ 53 := by
      have h1 : d * 2 ^ (floorLog2Quot a d).toNat ≤ d * 2 ^ 53 := by
        calc d * 2 ^ (floorLog2Quot a d).toNat ≤ a := hlow
          _ ≤ Y * d := h
          _ ≤ 2 ^ 53 * d := Nat.mul_le_mul_right _ hY
          _ = d * 2 ^ 53 := Nat.mul_comm _ _
      exact Nat.le_of_mul_le_mul_left h1 hd
    have hl53 : (floorLog2Quot a d).toNat ≤ 53 :=
      (Nat.pow_le_pow_iff_right (by norm_num)).mp hpow
    have hcase : quantumExp a d = 0 ∨ quantumExp a d = 1 := by omega
    rcases hcase with h0 | h1
    · unfold roundMant
      simp only [h0, le_refl, if_true, Int.toNat_zero, pow_zero, mul_one]
      exact roundHalfEven_le a d Y hd h
    · have hl' : (floorLog2Quot a d).toNat = 53 := by omega
      rw [hl'] at hlow
      have hY' : Y = 2 ^ 53 := by
        have : d * 2 ^ 53 ≤ Y * d := le_trans hlow h
        have : 2 ^ 53 * d ≤ Y * d := by rw [Nat.mul_comm]; exact this
        have := Nat.le_of_mul_le_mul_right this hd
        omega
      unfold roundMant
      simp only [h1]
      have hm : roundHalfEven a (d * 2 ^ (1 : Int).toNat) ≤ 2 ^ 52 := by
        apply roundHalfEven_le
        · simp; exact hd
        · rw [hY'] at h
          simp
          omega
      simp at hm ⊢
      omega
  · simp only [if_neg he]
    unfold roundMant
    simp only [if_neg he]
    apply roundHalfEven_le _ _ _ hd
    calc a * 2 ^ (-quantumExp a d).toNat ≤ Y * d * 2 ^ (-quantumExp a d).toNat :=
          Nat.mul_le_mul_right _ h
      _ = Y * 2 ^ (-quantumExp a d).toNat * d := by ring


/-- Magnitude part of `roundQuot`, lower side: rounding `a / d ≥ Y` does not
pass the integer `Y ≤ 2 ^ 53`. -/
theorem le_roundMant (a d Y : Nat) (ha : 0 < a) (hd : 0 < d) (hY : Y ≤ 2 ^ 53)
    (h : Y * d ≤ a) :
    Y * (if 0 ≤ quantumExp a d then 1 else 2 ^ (-quantumExp a d).toNat) ≤
      (if 0 ≤ quantumExp a d then roundMant a d * 2 ^ (quantumExp a d).toNat
        else roundMant a d) := by
  by_cases he : 0 ≤ quantumExp a d
  · simp only [if_pos he, mul_one]
    have hl : 52 ≤ floorLog2Quot a d := by
      unfold quantumExp at he
      simp only at he
      split_ifs at he <;> omega
    have hq : quantumExp a d = floorLog2Quot a d - 52 := by
      unfold quantumExp
      simp only
      rw [if_neg (by omega)]
    have hlow := floorLog2Quot_lower a d ha hd (by omega)
    have hsplit : (floorLog2Quot a d).toNat = 52 + (quantumExp a d).toNat := by omega
    have hm : 2 ^ 52 ≤ roundMant a d := by
      unfold roundMant
      simp only [if_pos he]
      apply le_roundHalfEven
      · exact Nat.mul_pos hd (by positivity)
      · rw [hsplit, pow_add] at hlow
        calc 2 ^ 52 * (d * 2 ^ (quantumExp a d).toNat)
            = d * (2 ^ 52 * 2 ^ (quantumExp a d).toNat) := by ring
          _ ≤ a := hlow
    rcases Nat.eq_zero_or_pos (quantumExp a d).toNat with h0 | hpos
    · rw [h0, pow_zero, mul_one]
      have hq0 : quantumExp a d = 0 := by omega
      unfold roundMant
      simp only [hq0, le_refl, if_true, Int.toNat_zero, pow_zero, mul_one]
      exact le_roundHalfEven a d Y hd h
    · have h2 : 2 ≤ 2 ^ (quantumExp a d).toNat := by
        calc 2 = 2 ^ 1 := by norm_num
          _ ≤ 2 ^ (quantumExp a d).toNat := Nat.pow_le_pow_right (by norm_num) hpos
      calc Y ≤ 2 ^ 53 := hY
        _ = 2 ^ 52 * 2 := by norm_num
        _ ≤ roundMant a d * 2 ^ (quantumExp a d).toNat := Nat.mul_le_mul hm h2
  · simp only [if_neg he]
    unfold roundMant
    simp only [if_neg he]
    apply le_roundHalfEven _ _ _ hd
    calc Y * 2 ^ (-quantumExp a d).toNat * d = Y * d * 2 ^ (-quantumExp a d).toNat := by ring
      _ ≤ a * 2 ^ (-quantumExp a d).toNat := Nat.mul_le_mul_right _ h

theorem roundQuot_of_ne (n : Int) (d : Nat) (hn : n ≠ 0) :
    roundQuot n d = ⟨if n < 0 then -(roundMant n.natAbs d : Int) else roundMant n.natAbs d,
      quantumExp n.natAbs d⟩ := by
  unfold roundQuot
  exact if_neg (by omega)

theorem roundQuot_num_of_pos (n : Int) (d : Nat) (hn : 0 < n) :
    (roundQuot n d).num = ((if 0 ≤ quantumExp n.natAbs d
      then roundMant n.natAbs d * 2 ^ (quantumExp n.natAbs d).toNat
      else roundMant n.natAbs d : Nat) : Int) := by
  rw [roundQuot_of_ne n d hn.ne']
  unfold Float64.num
  simp only [if_neg (not_lt.mpr hn.le)]
  split_ifs <;> simp

theorem roundQuot_num_of_neg (n : Int) (d : Nat) (hn : n < 0) :
    (roundQuot n d).num = -((if 0 ≤ quantumExp n.natAbs d
      then roundMant n.natAbs d * 2 ^ (quantumExp n.natAbs d).toNat
      else roundMant n.natAbs d : Nat) : Int) := by
  rw [roundQuot_of_ne n d hn.ne]
  unfold Float64.num
  simp only [if_pos hn]
  split_ifs <;> simp

theorem roundQuot_den_of_ne (n : Int) (d : Nat) (hn : n ≠ 0) :
    (roundQuot n d).den = (if 0 ≤ quantumExp n.natAbs d then 1
      else 2 ^ (-quantumExp n.natAbs d).toNat) := by
  rw [roundQuot_of_ne n d hn]
  rfl

theorem roundQuot_zero (d : Nat) : (roundQuot 0 d).num = 0 ∧ (roundQuot 0 d).den = 1 := by
  constructor <;> rfl

/-- Rounding `n / d ≤ Y` does not pass an integer `Y` with `|Y| ≤ 2 ^ 53`. -/
theorem roundQuot_le_int (n : Int) (d : Nat) (Y : Int) (hd : 0 < d)
    (hY1 : -(2 ^ 53) ≤ Y) (hY2 : Y ≤ 2 ^ 53) (h : n ≤ Y * d) :
    (roundQuot n d).num ≤ Y * (roundQuot n d).den := by
  have hdpos : (0 : Int) < d := by exact_mod_cast hd
  rcases lt_trichotomy n 0 with hn | hn | hn
  · rw [roundQuot_num_of_neg n d hn, roundQuot_den_of_ne n d hn.ne]
    rcases le_or_lt 0 Y with hy | hy
    · have h1 : (0 : Int) ≤ Y * ((if 0 ≤ quantumExp n.natAbs d then 1
          else 2 ^ (-quantumExp n.natAbs d).toNat : Nat) : Int) :=
        mul_nonneg hy (Int.ofNat_nonneg _)
      have h2 := Int.ofNat_nonneg (if 0 ≤ quantumExp n.natAbs d
        then roundMant n.natAbs d * 2 ^ (quantumExp n.natAbs d).toNat
        else roundMant n.natAbs d)
      omega
    · have hYn : ((-Y).toNat : Int) = -Y := Int.toNat_of_nonneg (by omega)
      have hle : (-Y).toNat * d ≤ n.natAbs := by
        have : (((-Y).toNat * d : Nat) : Int) ≤ (n.natAbs : Int) := by
          rw [Nat.cast_mul, hYn]
          have : (n.natAbs : Int) = -n := by omega
          rw [this]
          linarith
        exact_mod_cast this
      have hb : (-Y).toNat ≤ 2 ^ 53 := by
        have : ((-Y).toNat : Int) ≤ 2 ^ 53 := by rw [hYn]; omega
        exact_mod_cast this
      have key := le_roundMant n.natAbs d (-Y).toNat (by omega) hd hb hle
      have key2 : (((-Y).toNat * (if 0 ≤ quantumExp n.natAbs d then 1
          else 2 ^ (-quantumExp n.natAbs d).toNat) : Nat) : Int) ≤
          ((if 0 ≤ quantumExp n.natAbs d
            then roundMant n.natAbs d * 2 ^ (quantumExp n.natAbs d).toNat
            else roundMant n.natAbs d : Nat) : Int) := by exact_mod_cast key
      rw [Nat.cast_mul, hYn] at key2
      linarith
  · subst hn
    rw [(roundQuot_zero d).1, (roundQuot_zero d).2]
    have : 0 ≤ Y := by
      by_contra hneg
      have : Y * (d : Int) < 0 := mul_neg_of_neg_of_pos (by omega) hdpos
      omega
    simpa using this
  · rw [roundQuot_num_of_pos n d hn, roundQuot_den_of_ne n d hn.ne']
    have hypos : 0 < Y := by
      by_contra hneg
      have : Y * (d : Int) ≤ 0 := mul_nonpos_of_nonpos_of_nonneg (by omega) hdpos.le
      omega
    have hYn : (Y.toNat : Int) = Y := Int.toNat_of_nonneg hypos.le
    have hle : n.natAbs ≤ Y.toNat * d := by
      have : (n.natAbs : Int) ≤ ((Y.toNat * d : Nat) : Int) := by
        rw [Nat.cast_mul, hYn]
        have : (n.natAbs : Int) = n := by omega
        rw [this]
        exact h
      exact_mod_cast this
    have hb : Y.toNat ≤ 2 ^ 53 := by
      have : (Y.toNat : Int) ≤ 2 ^ 53 := by rw [hYn]; exact hY2
      exact_mod_cast this
    have key := roundMant_le n.natAbs d Y.toNat (by omega) hd hb hle
    have key2 : ((if 0 ≤ quantumExp n.natAbs d
            then roundMant n.natAbs d * 2 ^ (quantumExp n.natAbs d).toNat
            else roundMant n.natAbs d : Nat) : Int) ≤
        ((Y.toNat * (if 0 ≤ quantumExp n.natAbs d then 1
          else 2 ^ (-quantumExp n.natAbs d).toNat) : Nat) : Int) := by exact_mod_cast key
    rw [Nat.cast_mul, hYn] at key2
    exact key2

theorem roundQuot_neg (n : Int) (d : Nat) :
    (roundQuot (-n) d).num = -(roundQuot n d).num ∧ (roundQuot (-n) d).den = (roundQuot n d).den := by
  rcases lt_trichotomy n 0 with hn | hn | hn
  · have h1 : 0 < -n := by omega
    rw [roundQuot_num_of_pos (-n) d h1, roundQuot_num_of_neg n d hn,
      roundQuot_den_of_ne (-n) d h1.ne', roundQuot_den_of_ne n d hn.ne, Int.natAbs_neg]
    simp
  · subst hn
    simp [roundQuot_zero]
  · have h1 : -n < 0 := by omega
    rw [roundQuot_num_of_neg (-n) d h1, roundQuot_num_of_pos n d hn,
      roundQuot_den_of_ne (-n) d h1.ne, roundQuot_den_of_ne n d hn.ne', Int.natAbs_neg]
    simp

/-- Rounding `n / d ≥ Y` does not pass an integer `Y` with `|Y| ≤ 2 ^ 53`. -/
theorem le_roundQuot_int (n : Int) (d : Nat) (Y : Int) (hd : 0 < d)
    (hY1 : -(2 ^ 53) ≤ Y) (hY2 : Y ≤ 2 ^ 53) (h : Y * d ≤ n) :
    Y * (roundQuot n d).den ≤ (roundQuot n d).num := by
  have key := roundQuot_le_int (-n) d (-Y) hd (by omega) (by omega) (by linarith)
  rw [(roundQuot_neg n d).1, (roundQuot_neg n d).2] at key
  linarith


theorem Float64.den_pos (x : Float64) : 0 < x.den := by
  unfold Float64.den
  split_ifs
  · exact Nat.one_pos
  · positivity

/-- An integer of magnitude at most `2 ^ 53` converts to float64 exactly. -/
theorem Float64.ofInt_exact (i : Int) (h1 : -(2 ^ 53) ≤ i) (h2 : i ≤ 2 ^ 53) :
    (Float64.ofInt i).num = i * (Float64.ofInt i).den := by
  have hu := roundQuot_le_int i 1 i Nat.one_pos h1 h2 (by simp)
  have hl := le_roundQuot_int i 1 i Nat.one_pos h1 h2 (by simp)
  exact le_antisymm hu hl

theorem tmod_neg_eq (d b : Int) : Int.tmod (-d) b = -Int.tmod d b := by
  rw [Int.tmod_def, Int.tmod_def, Int.neg_tdiv]
  ring

theorem tmod_bounds (d b : Int) (hb : 0 < b) :
    -b < Int.tmod d b ∧ Int.tmod d b < b ∧ (0 ≤ d → 0 ≤ Int.tmod d b) ∧
      (d ≤ 0 → Int.tmod d b ≤ 0) := by
  refine ⟨?_, Int.tmod_lt_of_pos d hb, fun h => Int.tmod_nonneg b h, fun h => ?_⟩
  · rcases le_or_lt 0 d with h | h
    · have := Int.tmod_nonneg b h
      omega
    · have h1 := Int.tmod_lt_of_pos (-d) hb
      rw [tmod_neg_eq] at h1
      omega
  · have h1 := Int.tmod_nonneg (a := -d) b (by omega)
    rw [tmod_neg_eq] at h1
    omega

theorem ofInt_hour_num : (Float64.ofInt 3600000000000).num = 3600000000000 * 2048 := by decide

theorem ofInt_hour_den : (Float64.ofInt 3600000000000).den = 2048 := by decide

theorem ofInt_24_num : (Float64.ofInt 24).num = 24 * 2 ^ 48 := by decide

theorem ofInt_24_den : (Float64.ofInt 24).den = 2 ^ 48 := by decide

/-- The float64 quotient by a positive float does not exceed an integer `Y` that
bounds the exact quotient. -/
theorem Float64.div_le_int (x y : Float64) (Y : Int) (hy : 0 < y.num)
    (hY1 : -(2 ^ 53) ≤ Y) (hY2 : Y ≤ 2 ^ 53) (h : x.num * y.den ≤ Y * (x.den * y.num)) :
    (x.div y).num ≤ Y * (x.div y).den := by
  unfold Float64.div
  rw [if_neg (not_lt.mpr hy.le)]
  have hpos : 0 < x.den * y.num.natAbs := Nat.mul_pos x.den_pos (by omega)
  apply roundQuot_le_int _ _ _ hpos hY1 hY2
  have hcast : ((x.den * y.num.natAbs : Nat) : Int) = x.den * y.num := by
    rw [Nat.cast_mul]
    congr 1
    omega
  rw [hcast]
  exact h

/-- The float64 sum does not exceed an integer `Y` that bounds the exact sum. -/
theorem Float64.add_le_int (x y : Float64) (Y : Int)
    (hY1 : -(2 ^ 53) ≤ Y) (hY2 : Y ≤ 2 ^ 53)
    (h : x.num * y.den + y.num * x.den ≤ Y * (x.den * y.den)) :
    (x.add y).num ≤ Y * (x.add y).den := by
  unfold Float64.add
  apply roundQuot_le_int _ _ _ (Nat.mul_pos x.den_pos y.den_pos) hY1 hY2
  rw [Nat.cast_mul]
  exact h

/-- The float64 sum computed by `Duration.Hours` does not exceed an integer
number of hours `Y` that bounds the duration. -/
theorem durationHours_le_int (d Y : Int) (hd1 : -(2 ^ 63) ≤ d) (hd2 : d ≤ 2 ^ 63)
    (hY1 : -(2 ^ 53) ≤ Y) (hY2 : Y ≤ 2 ^ 53) (h : d ≤ Y * hour) :
    (durationHours d).num ≤ Y * (durationHours d).den := by
  obtain ⟨hr1, hr2, hr3, hr4⟩ := tmod_bounds d hour (by decide)
  have hdm := Int.tmod_add_tdiv d hour
  unfold hour at hr1 hr2 hr3 hr4 hdm h
  unfold durationHours
  simp only
  unfold hour
  generalize hq : Int.tdiv d 3600000000000 = q at *
  generalize hr : Int.tmod d 3600000000000 = r at *
  have hqe := Float64.ofInt_exact q (by omega) (by omega)
  have hre := Float64.ofInt_exact r (by omega) (by omega)
  have hqd := (Float64.ofInt q).den_pos
  have hrd := (Float64.ofInt r).den_pos
  rcases lt_or_le 0 r with hpos | hneg
  · -- the fraction of an hour rounds to at most 1
    have hfrac : ((Float64.ofInt r).div (Float64.ofInt 3600000000000)).num ≤
        1 * ((Float64.ofInt r).div (Float64.ofInt 3600000000000)).den := by
      apply Float64.div_le_int _ _ 1 (by decide) (by norm_num) (by norm_num)
      rw [ofInt_hour_num, ofInt_hour_den, hre]
      have hden : (0 : Int) < ((Float64.ofInt r).den : Int) := by exact_mod_cast hrd
      have hmul := mul_le_mul_of_nonneg_right hr2.le hden.le
      push_cast
      linarith
    apply Float64.add_le_int _ _ Y hY1 hY2
    rw [hqe]
    have hY : q + 1 ≤ Y := by omega
    have hd1 : (0 : Int) < ((Float64.ofInt q).den : Int) := by exact_mod_cast hqd
    have hd2 : (0 : Int) < (((Float64.ofInt r).div (Float64.ofInt 3600000000000)).den : Int) := by
      exact_mod_cast Float64.den_pos _
    nlinarith [mul_pos hd1 hd2]
  · have hfrac : ((Float64.ofInt r).div (Float64.ofInt 3600000000000)).num ≤
        0 * ((Float64.ofInt r).div (Float64.ofInt 3600000000000)).den := by
      apply Float64.div_le_int _ _ 0 (by decide) (by norm_num) (by norm_num)
      rw [ofInt_hour_num, ofInt_hour_den, hre]
      have hden : (0 : Int) < ((Float64.ofInt r).den : Int) := by exact_mod_cast hrd
      have hmul := mul_nonpos_of_nonpos_of_nonneg hneg hden.le
      push_cast
      linarith
    apply Float64.add_le_int _ _ Y hY1 hY2
    rw [hqe]
    have hY : q ≤ Y := by omega
    have hd1 : (0 : Int) < ((Float64.ofInt q).den : Int) := by exact_mod_cast hqd
    have hd2 : (0 : Int) < (((Float64.ofInt r).div (Float64.ofInt 3600000000000)).den : Int) := by
      exact_mod_cast Float64.den_pos _
    nlinarith [mul_pos hd1 hd2]


theorem timeUntil_bounds (now t : Int) :
    -(2 ^ 63) ≤ timeUntil now t ∧ timeUntil now t ≤ 2 ^ 63 ∧
      (minDuration ≤ t - now → timeUntil now t ≤ t - now) := by
  unfold timeUntil timeSub minDuration maxDuration
  split_ifs <;> refine ⟨?_, ?_, ?_⟩ <;> omega

/-- The computed `daysUntilExpiry` never exceeds `float64(c)` when the exact
remaining lifetime is at most `c` days and the difference is not below the
smallest `time.Duration`: rounding and the upper saturation only move the
verdict toward the more severe side. -/
theorem daysUntilExpiry_le_of_exact_le (now t c : Int) (hmin : minDuration ≤ t - now)
    (h : t - now ≤ c * day) : (daysUntilExpiry now t).le (Float64.ofInt c) := by
  obtain ⟨hb1, hb2, hb3⟩ := timeUntil_bounds now t
  have hD : timeUntil now t ≤ c * day := le_trans (hb3 hmin) h
  unfold day at hD
  unfold daysUntilExpiry Float64.le
  generalize timeUntil now t = D at *
  have hsd : (0 : Int) < ((durationHours D).den : Int) := by
    exact_mod_cast (durationHours D).den_pos
  have hcd : (0 : Int) < ((Float64.ofInt c).den : Int) := by
    exact_mod_cast (Float64.ofInt c).den_pos
  have hdd : (0 : Int) < (((durationHours D).div (Float64.ofInt 24)).den : Int) := by
    exact_mod_cast Float64.den_pos _
  rcases lt_or_le c (-(2 ^ 22)) with hc | hc
  · omega
  rcases le_or_lt (2 ^ 22) c with hc2 | hc2
  · have hs := durationHours_le_int D (2 ^ 26) hb1 hb2 (by norm_num) (by norm_num)
      (by unfold hour; omega)
    have hq : ((durationHours D).div (Float64.ofInt 24)).num ≤
        2 ^ 22 * ((durationHours D).div (Float64.ofInt 24)).den := by
      apply Float64.div_le_int _ _ (2 ^ 22) (by decide) (by norm_num) (by norm_num)
      rw [ofInt_24_num, ofInt_24_den]
      push_cast
      nlinarith
    have hfc : (2 ^ 22 : Int) * (Float64.ofInt c).den ≤ (Float64.ofInt c).num :=
      le_roundQuot_int c 1 (2 ^ 22) Nat.one_pos (by norm_num) (by norm_num) (by simpa using hc2)
    calc ((durationHours D).div (Float64.ofInt 24)).num * ((Float64.ofInt c).den : Int)
        ≤ 2 ^ 22 * ((durationHours D).div (Float64.ofInt 24)).den * (Float64.ofInt c).den :=
          mul_le_mul_of_nonneg_right hq hcd.le
      _ = 2 ^ 22 * (Float64.ofInt c).den * ((durationHours D).div (Float64.ofInt 24)).den := by
          ring
      _ ≤ (Float64.ofInt c).num * ((durationHours D).div (Float64.ofInt 24)).den :=
          mul_le_mul_of_nonneg_right hfc hdd.le
  · have hs := durationHours_le_int D (24 * c) hb1 hb2 (by omega) (by omega)
      (by unfold hour; omega)
    have hq : ((durationHours D).div (Float64.ofInt 24)).num ≤
        c * ((durationHours D).div (Float64.ofInt 24)).den := by
      apply Float64.div_le_int _ _ c (by decide) (by omega) (by omega)
      rw [ofInt_24_num, ofInt_24_den]
      push_cast
      nlinarith
    have hfc := Float64.ofInt_exact c (by omega) (by omega)
    rw [hfc]
    calc ((durationHours D).div (Float64.ofInt 24)).num * ((Float64.ofInt c).den : Int)
        ≤ c * ((durationHours D).div (Float64.ofInt 24)).den * (Float64.ofInt c).den :=
          mul_le_mul_of_nonneg_right hq hcd.le
      _ = c * (Float64.ofInt c).den * ((durationHours D).div (Float64.ofInt 24)).den := by
          ring


/-! ## Rounding does not pass a float64 bound -/

theorem floorLog2Quot_lower_neg (a d : Nat) (ha : 0 < a) (hd : 0 < d)
    (hl : floorLog2Quot a d < 0) : d ≤ a * 2 ^ (-floorLog2Quot a d).toNat := by
  obtain ⟨ha1, _⟩ := log2Floor_spec a a (le_refl _) ha
  obtain ⟨_, hd2⟩ := log2Floor_spec d d (le_refl _) hd
  unfold floorLog2Quot at hl ⊢
  simp only at hl ⊢
  split_ifs at hl ⊢ with hk h1 h2
  · omega
  · -- the two logarithms are equal and the quotient is below 1
    have hk0 : (log2Floor a a : Int) - (log2Floor d d : Int) = 0 := by omega
    have heq : log2Floor a a = log2Floor d d := by omega
    rw [hk0]
    simp only [zero_sub, neg_neg, Int.reduceNeg]
    have : (1 : Int).toNat = 1 := rfl
    rw [this, pow_one]
    rw [heq] at ha1
    rw [pow_succ] at hd2
    omega
  · exact h2
  · have hlt : log2Floor a a < log2Floor d d := by omega
    have ht : (-((log2Floor a a : Int) - (log2Floor d d : Int) - 1)).toNat =
        log2Floor d d + 1 - log2Floor a a := by omega
    rw [ht]
    have hpow : 2 ^ log2Floor a a * 2 ^ (log2Floor d d + 1 - log2Floor a a) =
        2 ^ (log2Floor d d + 1) := by
      rw [← pow_add]; congr 1; omega
    have : 2 ^ log2Floor a a * 2 ^ (log2Floor d d + 1 - log2Floor a a) ≤
        a * 2 ^ (log2Floor d d + 1 - log2Floor a a) := Nat.mul_le_mul_right _ ha1
    omega

/-- In the normal range `a / d` is at least `2 ^ 52` units of the last place. -/
theorem normal_scaled_lower (a d : Nat) (ha : 0 < a) (hd : 0 < d)
    (hE : -1074 < quantumExp a d) :
    (0 ≤ quantumExp a d → 2 ^ 52 * (d * 2 ^ (quantumExp a d).toNat) ≤ a) ∧
    (¬ 0 ≤ quantumExp a d → 2 ^ 52 * d ≤ a * 2 ^ (-quantumExp a d).toNat) := by
  have hq : quantumExp a d = floorLog2Quot a d - 52 := by
    unfold quantumExp at hE ⊢
    simp only at hE ⊢
    split_ifs at hE ⊢ <;> omega
  constructor
  · intro he
    have hlow := floorLog2Quot_lower a d ha hd (by omega)
    have hsplit : (floorLog2Quot a d).toNat = 52 + (quantumExp a d).toNat := by omega
    rw [hsplit, pow_add] at hlow
    calc 2 ^ 52 * (d * 2 ^ (quantumExp a d).toNat)
        = d * (2 ^ 52 * 2 ^ (quantumExp a d).toNat) := by ring
      _ ≤ a := hlow
  · intro he
    rcases le_or_lt 0 (floorLog2Quot a d) with hl | hl
    · have hlow := floorLog2Quot_lower a d ha hd hl
      have hsplit : 52 = (floorLog2Quot a d).toNat + (-quantumExp a d).toNat := by omega
      calc 2 ^ 52 * d = d * 2 ^ 52 := Nat.mul_comm _ _
        _ = d * 2 ^ ((floorLog2Quot a d).toNat + (-quantumExp a d).toNat) := by rw [← hsplit]
        _ = d * 2 ^ (floorLog2Quot a d).toNat * 2 ^ (-quantumExp a d).toNat := by
            rw [pow_add]; ring
        _ ≤ a * 2 ^ (-quantumExp a d).toNat := Nat.mul_le_mul_right _ hlow
    · have hlow := floorLog2Quot_lower_neg a d ha hd hl
      have hsplit : (-quantumExp a d).toNat = (-floorLog2Quot a d).toNat + 52 := by omega
      calc 2 ^ 52 * d ≤ 2 ^ 52 * (a * 2 ^ (-floorLog2Quot a d).toNat) :=
            Nat.mul_le_mul_left _ hlow
        _ = a * 2 ^ ((-floorLog2Quot a d).toNat + 52) := by rw [pow_add]; ring
        _ = a * 2 ^ (-quantumExp a d).toNat := by rw [hsplit]

/-- In the normal range the rounded significand is at least `2 ^ 52`. -/
theorem two_pow_52_le_roundMant (a d : Nat) (ha : 0 < a) (hd : 0 < d)
    (hE : -1074 < quantumExp a d) : 2 ^ 52 ≤ roundMant a d := by
  obtain ⟨h1, h2⟩ := normal_scaled_lower a d ha hd hE
  unfold roundMant
  simp only
  split_ifs with he
  · exact le_roundHalfEven _ _ _ (Nat.mul_pos hd (by positivity)) (h1 he)
  · exact le_roundHalfEven _ _ _ hd (h2 he)

theorem quantumExp_ge (a d : Nat) : -1074 ≤ quantumExp a d := by
  unfold quantumExp
  simp only
  split_ifs <;> omega


/-- Magnitude part of `roundQuot`, upper side, for a bound `M / 2 ^ k` that is
itself a float64 (`M ≤ 2 ^ 53`): rounding `a / d ≤ M / 2 ^ k` does not pass it. -/
theorem roundMant_le_dyadic (a d M k : Nat) (ha : 0 < a) (hd : 0 < d) (hM : M ≤ 2 ^ 53)
    (hk : k ≤ 1074) (h : a * 2 ^ k ≤ M * d) :
    (if 0 ≤ quantumExp a d then roundMant a d * 2 ^ (quantumExp a d).toNat else roundMant a d)
        * 2 ^ k ≤
      M * (if 0 ≤ quantumExp a d then 1 else 2 ^ (-quantumExp a d).toNat) := by
  have hge := quantumExp_ge a d
  by_cases hfine : quantumExp a d + k ≤ 0
  · -- the bound lies on the grid of the result
    have he : ¬ 0 < quantumExp a d := by omega
    by_cases he0 : 0 ≤ quantumExp a d
    · have hq0 : quantumExp a d = 0 := by omega
      have hk0 : k = 0 := by omega
      subst hk0
      simp only [if_pos he0, hq0, Int.toNat_zero, pow_zero, mul_one]
      unfold roundMant
      simp only [hq0, le_refl, if_true, Int.toNat_zero, pow_zero, mul_one]
      exact roundHalfEven_le a d M hd (by simpa using h)
    · simp only [if_neg he0]
      have hsplit : (-quantumExp a d).toNat = k + ((-quantumExp a d).toNat - k) := by omega
      have hm : roundMant a d ≤ M * 2 ^ ((-quantumExp a d).toNat - k) := by
        unfold roundMant
        simp only [if_neg he0]
        apply roundHalfEven_le _ _ _ hd
        calc a * 2 ^ (-quantumExp a d).toNat
            = a * 2 ^ k * 2 ^ ((-quantumExp a d).toNat - k) := by
              rw [hsplit, pow_add]; simp only [Nat.add_sub_cancel_left]; ring
          _ ≤ M * d * 2 ^ ((-quantumExp a d).toNat - k) := Nat.mul_le_mul_right _ h
          _ = M * 2 ^ ((-quantumExp a d).toNat - k) * d := by ring
      calc roundMant a d * 2 ^ k ≤ M * 2 ^ ((-quantumExp a d).toNat - k) * 2 ^ k :=
            Nat.mul_le_mul_right _ hm
        _ = M * 2 ^ (-quantumExp a d).toNat := by
            rw [Nat.mul_assoc, ← pow_add, Nat.sub_add_cancel (by omega)]
  · -- the grid of the result is coarser: the bound is the power of two below
    have hnorm : -1074 < quantumExp a d := by omega
    obtain ⟨h1, h2⟩ := normal_scaled_lower a d ha hd hnorm
    have hMd : M * d ≤ 2 ^ 53 * d := Nat.mul_le_mul_right _ hM
    by_cases he0 : 0 ≤ quantumExp a d
    · simp only [if_pos he0, mul_one]
      have h1' := h1 he0
      have hchain : 2 ^ 52 * (d * 2 ^ (quantumExp a d).toNat) * 2 ^ k ≤ 2 ^ 53 * d :=
        le_trans (Nat.mul_le_mul_right _ h1') (le_trans h hMd)
      have hpow : 2 ^ ((quantumExp a d).toNat + k) ≤ 2 ^ 1 := by
        have : d * (2 ^ 52 * 2 ^ ((quantumExp a d).toNat + k)) ≤ d * (2 ^ 52 * 2 ^ 1) := by
          calc d * (2 ^ 52 * 2 ^ ((quantumExp a d).toNat + k))
              = 2 ^ 52 * (d * 2 ^ (quantumExp a d).toNat) * 2 ^ k := by rw [pow_add]; ring
            _ ≤ 2 ^ 53 * d := hchain
            _ = d * (2 ^ 52 * 2 ^ 1) := by ring
        exact Nat.le_of_mul_le_mul_left (Nat.le_of_mul_le_mul_left this hd) (by positivity)
      have hsum : (quantumExp a d).toNat + k ≤ 1 :=
        (Nat.pow_le_pow_iff_right (by norm_num)).mp hpow
      have hsum1 : (quantumExp a d).toNat + k = 1 := by omega
      have hM53 : M = 2 ^ 53 := by
        have : 2 ^ 53 * d ≤ M * d := by
          calc 2 ^ 53 * d = 2 ^ 52 * d * 2 ^ ((quantumExp a d).toNat + k) := by
                rw [hsum1]; ring
            _ = 2 ^ 52 * (d * 2 ^ (quantumExp a d).toNat) * 2 ^ k := by rw [pow_add]; ring
            _ ≤ a * 2 ^ k := Nat.mul_le_mul_right _ h1'
            _ ≤ M * d := h
        have := Nat.le_of_mul_le_mul_right this hd
        omega
      have hm : roundMant a d ≤ 2 ^ 52 := by
        unfold roundMant
        simp only [if_pos he0]
        apply roundHalfEven_le _ _ _ (Nat.mul_pos hd (by positivity))
        have h2k : a * 2 ^ k * 2 ^ (quantumExp a d).toNat ≤
            2 ^ 52 * (d * 2 ^ (quantumExp a d).toNat) * 2 ^ ((quantumExp a d).toNat + k) := by
          calc a * 2 ^ k * 2 ^ (quantumExp a d).toNat
              ≤ M * d * 2 ^ (quantumExp a d).toNat := Nat.mul_le_mul_right _ h
            _ = 2 ^ 52 * (d * 2 ^ (quantumExp a d).toNat) * 2 ^ ((quantumExp a d).toNat + k) := by
                rw [hM53, hsum1]; ring
        have hpos : 0 < 2 ^ ((quantumExp a d).toNat + k) := by positivity
        have : a * 2 ^ ((quantumExp a d).toNat + k) ≤
            2 ^ 52 * (d * 2 ^ (quantumExp a d).toNat) * 2 ^ ((quantumExp a d).toNat + k) := by
          calc a * 2 ^ ((quantumExp a d).toNat + k)
              = a * 2 ^ k * 2 ^ (quantumExp a d).toNat := by rw [pow_add]; ring
            _ ≤ _ := h2k
        exact Nat.le_of_mul_le_mul_right this hpos
      calc roundMant a d * 2 ^ (quantumExp a d).toNat * 2 ^ k
          = roundMant a d * 2 ^ ((quantumExp a d).toNat + k) := by rw [pow_add]; ring
        _ ≤ 2 ^ 52 * 2 ^ ((quantumExp a d).toNat + k) := Nat.mul_le_mul_right _ hm
        _ = M := by rw [hsum1, hM53]; norm_num
    · simp only [if_neg he0]
      have h2' := h2 he0
      obtain ⟨j, hj⟩ : ∃ j, k = (-quantumExp a d).toNat + j := ⟨k - (-quantumExp a d).toNat, by omega⟩
      have hj1 : 1 ≤ j := by omega
      have hchain : 2 ^ 52 * d * 2 ^ j ≤ 2 ^ 53 * d := by
        calc 2 ^ 52 * d * 2 ^ j ≤ a * 2 ^ (-quantumExp a d).toNat * 2 ^ j :=
              Nat.mul_le_mul_right _ h2'
          _ = a * 2 ^ k := by rw [hj, pow_add]; ring
          _ ≤ M * d := h
          _ ≤ 2 ^ 53 * d := hMd
      have hpow : 2 ^ j ≤ 2 ^ 1 := by
        have : d * (2 ^ 52 * 2 ^ j) ≤ d * (2 ^ 52 * 2 ^ 1) := by
          calc d * (2 ^ 52 * 2 ^ j) = 2 ^ 52 * d * 2 ^ j := by ring
            _ ≤ 2 ^ 53 * d := hchain
            _ = d * (2 ^ 52 * 2 ^ 1) := by ring
        exact Nat.le_of_mul_le_mul_left (Nat.le_of_mul_le_mul_left this hd) (by positivity)
      have hj' : j ≤ 1 := (Nat.pow_le_pow_iff_right (by norm_num)).mp hpow
      have hjeq : j = 1 := by omega
      subst hjeq
      have hM53 : M = 2 ^ 53 := by
        have : 2 ^ 53 * d ≤ M * d := by
          calc 2 ^ 53 * d = 2 ^ 52 * d * 2 ^ 1 := by ring
            _ ≤ a * 2 ^ (-quantumExp a d).toNat * 2 ^ 1 := Nat.mul_le_mul_right _ h2'
            _ = a * 2 ^ k := by rw [hj, pow_add]; ring
            _ ≤ M * d := h
        have := Nat.le_of_mul_le_mul_right this hd
        omega
      have hm : roundMant a d ≤ 2 ^ 52 := by
        unfold roundMant
        simp only [if_neg he0]
        apply roundHalfEven_le _ _ _ hd
        have : a * 2 ^ (-quantumExp a d).toNat * 2 ≤ 2 ^ 52 * d * 2 := by
          calc a * 2 ^ (-quantumExp a d).toNat * 2 = a * 2 ^ k := by rw [hj, pow_add]; ring
            _ ≤ M * d := h
            _ = 2 ^ 52 * d * 2 := by rw [hM53]; ring
        omega
      calc roundMant a d * 2 ^ k ≤ 2 ^ 52 * 2 ^ k := Nat.mul_le_mul_right _ hm
        _ = M * 2 ^ (-quantumExp a d).toNat := by rw [hj, hM53, pow_add]; ring


/-- Magnitude part of `roundQuot`, lower side, for a bound `M / 2 ^ k` that is
itself a float64 (`M ≤ 2 ^ 53`): rounding `a / d ≥ M / 2 ^ k` does not pass it. -/
theorem le_roundMant_dyadic (a d M k : Nat) (ha : 0 < a) (hd : 0 < d) (hM : M ≤ 2 ^ 53)
    (hk : k ≤ 1074) (h : M * d ≤ a * 2 ^ k) :
    M * (if 0 ≤ quantumExp a d then 1 else 2 ^ (-quantumExp a d).toNat) ≤
      (if 0 ≤ quantumExp a d then roundMant a d * 2 ^ (quantumExp a d).toNat else roundMant a d)
        * 2 ^ k := by
  have hge := quantumExp_ge a d
  by_cases hfine : quantumExp a d + k ≤ 0
  · by_cases he0 : 0 ≤ quantumExp a d
    · have hq0 : quantumExp a d = 0 := by omega
      have hk0 : k = 0 := by omega
      subst hk0
      simp only [if_pos he0, hq0, Int.toNat_zero, pow_zero, mul_one]
      unfold roundMant
      simp only [hq0, le_refl, if_true, Int.toNat_zero, pow_zero, mul_one]
      exact le_roundHalfEven a d M hd (by simpa using h)
    · simp only [if_neg he0]
      have hsplit : (-quantumExp a d).toNat = k + ((-quantumExp a d).toNat - k) := by omega
      have hm : M * 2 ^ ((-quantumExp a d).toNat - k) ≤ roundMant a d := by
        unfold roundMant
        simp only [if_neg he0]
        apply le_roundHalfEven _ _ _ hd
        calc M * 2 ^ ((-quantumExp a d).toNat - k) * d
            = M * d * 2 ^ ((-quantumExp a d).toNat - k) := by ring
          _ ≤ a * 2 ^ k * 2 ^ ((-quantumExp a d).toNat - k) := Nat.mul_le_mul_right _ h
          _ = a * 2 ^ (-quantumExp a d).toNat := by
              rw [Nat.mul_assoc, ← pow_add, Nat.add_sub_cancel' (by omega)]
      calc M * 2 ^ (-quantumExp a d).toNat
          = M * 2 ^ ((-quantumExp a d).toNat - k) * 2 ^ k := by
            rw [Nat.mul_assoc, ← pow_add, Nat.sub_add_cancel (by omega)]
        _ ≤ roundMant a d * 2 ^ k := Nat.mul_le_mul_right _ hm
  · have hnorm : -1074 < quantumExp a d := by omega
    have hm52 := two_pow_52_le_roundMant a d ha hd hnorm
    by_cases he0 : 0 ≤ quantumExp a d
    · simp only [if_pos he0, mul_one]
      have hpos : 1 ≤ (quantumExp a d).toNat + k := by omega
      have h2 : 2 ^ 1 ≤ 2 ^ ((quantumExp a d).toNat + k) :=
        Nat.pow_le_pow_right (by norm_num) hpos
      calc M ≤ 2 ^ 53 := hM
        _ = 2 ^ 52 * 2 ^ 1 := by norm_num
        _ ≤ roundMant a d * 2 ^ ((quantumExp a d).toNat + k) := Nat.mul_le_mul hm52 h2
        _ = roundMant a d * 2 ^ (quantumExp a d).toNat * 2 ^ k := by rw [pow_add]; ring
    · simp only [if_neg he0]
      have hpos : (-quantumExp a d).toNat + 1 ≤ k := by omega
      have h2 : 2 ^ ((-quantumExp a d).toNat + 1) ≤ 2 ^ k :=
        Nat.pow_le_pow_right (by norm_num) hpos
      calc M * 2 ^ (-quantumExp a d).toNat ≤ 2 ^ 53 * 2 ^ (-quantumExp a d).toNat :=
            Nat.mul_le_mul_right _ hM
        _ = 2 ^ 52 * 2 ^ ((-quantumExp a d).toNat + 1) := by rw [pow_add]; ring
        _ ≤ roundMant a d * 2 ^ k := Nat.mul_le_mul hm52 h2


/-- Rounding `n / d ≤ M / 2 ^ k` does not pass `M / 2 ^ k` when `|M| ≤ 2 ^ 53`. -/
theorem roundQuot_le_dyadic (n : Int) (d : Nat) (M : Int) (k : Nat) (hd : 0 < d)
    (hM1 : -(2 ^ 53) ≤ M) (hM2 : M ≤ 2 ^ 53) (hk : k ≤ 1074) (h : n * 2 ^ k ≤ M * d) :
    (roundQuot n d).num * 2 ^ k ≤ M * (roundQuot n d).den := by
  have hdpos : (0 : Int) < d := by exact_mod_cast hd
  have h2k : (0 : Int) < 2 ^ k := by positivity
  rcases lt_trichotomy n 0 with hn | hn | hn
  · rw [roundQuot_num_of_neg n d hn, roundQuot_den_of_ne n d hn.ne]
    rcases le_or_lt 0 M with hy | hy
    · have h1 : (0 : Int) ≤ M * ((if 0 ≤ quantumExp n.natAbs d then 1
          else 2 ^ (-quantumExp n.natAbs d).toNat : Nat) : Int) :=
        mul_nonneg hy (Int.ofNat_nonneg _)
      have h2 : (0 : Int) ≤ ((if 0 ≤ quantumExp n.natAbs d
        then roundMant n.natAbs d * 2 ^ (quantumExp n.natAbs d).toNat
        else roundMant n.natAbs d : Nat) : Int) * 2 ^ k :=
        mul_nonneg (Int.ofNat_nonneg _) h2k.le
      linarith
    · have hYn : ((-M).toNat : Int) = -M := Int.toNat_of_nonneg (by omega)
      have hle : (-M).toNat * d ≤ n.natAbs * 2 ^ k := by
        have : (((-M).toNat * d : Nat) : Int) ≤ ((n.natAbs * 2 ^ k : Nat) : Int) := by
          rw [Nat.cast_mul, Nat.cast_mul, hYn]
          have : (n.natAbs : Int) = -n := by omega
          rw [this]
          push_cast
          linarith
        exact_mod_cast this
      have hb : (-M).toNat ≤ 2 ^ 53 := by
        have : ((-M).toNat : Int) ≤ 2 ^ 53 := by rw [hYn]; omega
        exact_mod_cast this
      have key := le_roundMant_dyadic n.natAbs d (-M).toNat k (by omega) hd hb hk hle
      have key2 : (((-M).toNat * (if 0 ≤ quantumExp n.natAbs d then 1
          else 2 ^ (-quantumExp n.natAbs d).toNat) : Nat) : Int) ≤
          (((if 0 ≤ quantumExp n.natAbs d
            then roundMant n.natAbs d * 2 ^ (quantumExp n.natAbs d).toNat
            else roundMant n.natAbs d) * 2 ^ k : Nat) : Int) := by exact_mod_cast key
      rw [Nat.cast_mul, hYn, Nat.cast_mul] at key2
      push_cast at key2 ⊢
      linarith
  · subst hn
    rw [(roundQuot_zero d).1, (roundQuot_zero d).2]
    have : 0 ≤ M := by
      by_contra hneg
      have : M * (d : Int) < 0 := mul_neg_of_neg_of_pos (by omega) hdpos
      simp at h
      omega
    simpa using this
  · rw [roundQuot_num_of_pos n d hn, roundQuot_den_of_ne n d hn.ne']
    have hypos : 0 < M := by
      by_contra hneg
      have h1 : M * (d : Int) ≤ 0 := mul_nonpos_of_nonpos_of_nonneg (by omega) hdpos.le
      have h2 : 0 < n * 2 ^ k := mul_pos hn h2k
      omega
    have hYn : (M.toNat : Int) = M := Int.toNat_of_nonneg hypos.le
    have hle : n.natAbs * 2 ^ k ≤ M.toNat * d := by
      have : ((n.natAbs * 2 ^ k : Nat) : Int) ≤ ((M.toNat * d : Nat) : Int) := by
        rw [Nat.cast_mul, Nat.cast_mul, hYn]
        have : (n.natAbs : Int) = n := by omega
        rw [this]
        push_cast
        exact h
      exact_mod_cast this
    have hb : M.toNat ≤ 2 ^ 53 := by
      have : (M.toNat : Int) ≤ 2 ^ 53 := by rw [hYn]; exact hM2
      exact_mod_cast this
    have key := roundMant_le_dyadic n.natAbs d M.toNat k (by omega) hd hb hk hle
    have key2 : (((if 0 ≤ quantumExp n.natAbs d
            then roundMant n.natAbs d * 2 ^ (quantumExp n.natAbs d).toNat
            else roundMant n.natAbs d) * 2 ^ k : Nat) : Int) ≤
        ((M.toNat * (if 0 ≤ quantumExp n.natAbs d then 1
          else 2 ^ (-quantumExp n.natAbs d).toNat) : Nat) : Int) := by exact_mod_cast key
    rw [Nat.cast_mul, Nat.cast_mul, hYn] at key2
    push_cast at key2 ⊢
    exact key2

/-- Rounding `n / d ≥ M / 2 ^ k` does not pass `M / 2 ^ k` when `|M| ≤ 2 ^ 53`. -/
theorem le_roundQuot_dyadic (n : Int) (d : Nat) (M : Int) (k : Nat) (hd : 0 < d)
    (hM1 : -(2 ^ 53) ≤ M) (hM2 : M ≤ 2 ^ 53) (hk : k ≤ 1074) (h : M * d ≤ n * 2 ^ k) :
    M * (roundQuot n d).den ≤ (roundQuot n d).num * 2 ^ k := by
  have key := roundQuot_le_dyadic (-n) d (-M) k hd (by omega) (by omega) hk (by linarith)
  rw [(roundQuot_neg n d).1, (roundQuot_neg n d).2] at key
  linarith


/-- The float64 quotient by a positive float is not below a float64 bound
`M / 2 ^ k` that the exact quotient reaches. -/
theorem Float64.le_div_dyadic (x y : Float64) (M : Int) (k : Nat) (hy : 0 < y.num)
    (hM1 : -(2 ^ 53) ≤ M) (hM2 : M ≤ 2 ^ 53) (hk : k ≤ 1074)
    (h : M * (x.den * y.num) ≤ x.num * y.den * 2 ^ k) :
    M * (x.div y).den ≤ (x.div y).num * 2 ^ k := by
  unfold Float64.div
  rw [if_neg (not_lt.mpr hy.le)]
  have hpos : 0 < x.den * y.num.natAbs := Nat.mul_pos x.den_pos (by omega)
  apply le_roundQuot_dyadic _ _ _ _ hpos hM1 hM2 hk
  have hcast : ((x.den * y.num.natAbs : Nat) : Int) = x.den * y.num := by
    rw [Nat.cast_mul]
    congr 1
    omega
  rw [hcast]
  exact h

/-- The float64 sum is not below a float64 bound `M / 2 ^ k` that the exact sum
reaches. -/
theorem Float64.le_add_dyadic (x y : Float64) (M : Int) (k : Nat)
    (hM1 : -(2 ^ 53) ≤ M) (hM2 : M ≤ 2 ^ 53) (hk : k ≤ 1074)
    (h : M * (x.den * y.den) ≤ (x.num * y.den + y.num * x.den) * 2 ^ k) :
    M * (x.add y).den ≤ (x.add y).num * 2 ^ k := by
  unfold Float64.add
  apply le_roundQuot_dyadic _ _ _ _ (Nat.mul_pos x.den_pos y.den_pos) hM1 hM2 hk
  rw [Nat.cast_mul]
  exact h

/-- The float64 sum computed by `Duration.Hours` exceeds an integer number of
hours `Y` by at least `2 ^ (-31)` when the duration exceeds `Y` hours by 2000 ns. -/
theorem le_durationHours_dyadic (d Y : Int) (hd1 : -(2 ^ 63) ≤ d) (hd2 : d ≤ 2 ^ 63)
    (hY1 : -(2 ^ 22) ≤ Y) (hY2 : Y ≤ 2 ^ 22) (h : Y * hour + 2000 ≤ d) :
    (Y * 2 ^ 31 + 1) * (durationHours d).den ≤ (durationHours d).num * 2 ^ 31 := by
  obtain ⟨hr1, hr2, hr3, hr4⟩ := tmod_bounds d hour (by decide)
  have hdm := Int.tmod_add_tdiv d hour
  unfold hour at hr1 hr2 hr3 hr4 hdm h
  unfold durationHours
  simp only
  unfold hour
  generalize hq : Int.tdiv d 3600000000000 = q at *
  generalize hr : Int.tmod d 3600000000000 = r at *
  have hqe := Float64.ofInt_exact q (by omega) (by omega)
  have hre := Float64.ofInt_exact r (by omega) (by omega)
  have hqd : (0 : Int) < ((Float64.ofInt q).den : Int) := by
    exact_mod_cast (Float64.ofInt q).den_pos
  have hrd : (0 : Int) < ((Float64.ofInt r).den : Int) := by
    exact_mod_cast (Float64.ofInt r).den_pos
  have hfd : (0 : Int) < (((Float64.ofInt r).div (Float64.ofInt 3600000000000)).den : Int) := by
    exact_mod_cast Float64.den_pos _
  have hqY : Y ≤ q := by omega
  rcases le_or_lt q (Y + 1) with hclose | hfar
  · -- the whole hours are `Y` or `Y + 1`: the fraction carries the excess
    have hfrac : (1 - (q - Y) * 2 ^ 31) *
        ((Float64.ofInt r).div (Float64.ofInt 3600000000000)).den ≤
        ((Float64.ofInt r).div (Float64.ofInt 3600000000000)).num * 2 ^ 31 := by
      apply Float64.le_div_dyadic _ _ _ 31 (by decide) (by omega) (by omega) (by norm_num)
      rw [ofInt_hour_num, ofInt_hour_den, hre]
      push_cast
      have hlin : (1 - (q - Y) * 2 ^ 31) * 3600000000000 ≤ r * 2 ^ 31 := by omega
      have := mul_le_mul_of_nonneg_left hlin (mul_nonneg hrd.le (by norm_num : (0 : Int) ≤ 2048))
      linarith
    apply Float64.le_add_dyadic _ _ _ 31 (by omega) (by omega) (by norm_num)
    rw [hqe]
    have := mul_le_mul_of_nonneg_left hfrac hqd.le
    have hexp : (Y * 2 ^ 31 + 1) *
        (((Float64.ofInt q).den : Int) *
          (((Float64.ofInt r).div (Float64.ofInt 3600000000000)).den : Int)) =
        q * 2 ^ 31 * ((Float64.ofInt q).den *
          ((Float64.ofInt r).div (Float64.ofInt 3600000000000)).den) +
        (Float64.ofInt q).den * ((1 - (q - Y) * 2 ^ 31) *
          ((Float64.ofInt r).div (Float64.ofInt 3600000000000)).den) := by ring
    rw [hexp]
    linarith
  · -- at least two whole hours above `Y`: the fraction is at least -1
    have hfrac : (-1) * ((Float64.ofInt r).div (Float64.ofInt 3600000000000)).den ≤
        ((Float64.ofInt r).div (Float64.ofInt 3600000000000)).num * 2 ^ 0 := by
      apply Float64.le_div_dyadic _ _ _ 0 (by decide) (by norm_num) (by norm_num) (by norm_num)
      rw [ofInt_hour_num, ofInt_hour_den, hre]
      push_cast
      have hlin : (-1) * 3600000000000 ≤ r := by omega
      have := mul_le_mul_of_nonneg_left hlin (mul_nonneg hrd.le (by norm_num : (0 : Int) ≤ 2048))
      linarith
    have hsum : (q - 1) * ((Float64.ofInt q).add
          ((Float64.ofInt r).div (Float64.ofInt 3600000000000))).den ≤
        ((Float64.ofInt q).add
          ((Float64.ofInt r).div (Float64.ofInt 3600000000000))).num * 2 ^ 0 := by
      apply Float64.le_add_dyadic _ _ _ 0 (by omega) (by omega) (by norm_num)
      rw [hqe]
      have := mul_le_mul_of_nonneg_left hfrac hqd.le
      simp only [pow_zero, mul_one] at this ⊢
      linarith
    have hsd : (0 : Int) < (((Float64.ofInt q).add
        ((Float64.ofInt r).div (Float64.ofInt 3600000000000))).den : Int) := by
      exact_mod_cast Float64.den_pos _
    simp only [pow_zero, mul_one] at hsum
    have hstep : (Y * 2 ^ 31 + 1) ≤ (q - 1) * 2 ^ 31 := by omega
    have h1 := mul_le_mul_of_nonneg_right hstep hsd.le
    have h2 := mul_le_mul_of_nonneg_right hsum (by norm_num : (0 : Int) ≤ 2 ^ 31)
    linarith


/-- The computed number of days exceeds an integer `c` by at least `2 ^ (-36)`
when the duration exceeds `c` days by 2000 ns. -/
theorem le_days_dyadic (d c : Int) (hd1 : -(2 ^ 63) ≤ d) (hd2 : d ≤ 2 ^ 63)
    (hc1 : -(2 ^ 17) ≤ c) (hc2 : c < 2 ^ 17) (h : c * day + 2000 ≤ d) :
    (c * 2 ^ 36 + 1) * ((durationHours d).div (Float64.ofInt 24)).den ≤
      ((durationHours d).div (Float64.ofInt 24)).num * 2 ^ 36 := by
  unfold day at h
  have hs := le_durationHours_dyadic d (24 * c) hd1 hd2 (by omega) (by omega)
    (by unfold hour; omega)
  have hsd : (0 : Int) < ((durationHours d).den : Int) := by
    exact_mod_cast (durationHours d).den_pos
  apply Float64.le_div_dyadic _ _ _ 36 (by decide) (by omega) (by omega) (by norm_num)
  rw [ofInt_24_num, ofInt_24_den]
  push_cast
  nlinarith

theorem timeUntil_ge (now t : Int) (h : t - now ≤ maxDuration) : t - now ≤ timeUntil now t := by
  unfold timeUntil timeSub
  unfold maxDuration at h
  unfold minDuration maxDuration
  split_ifs <;> omega

/-- The computed `daysUntilExpiry` is above `float64(c)` when the exact
remaining lifetime exceeds `c` days by at least 2000 ns and the difference is
not above the largest `time.Duration`: rounding moves a verdict toward the
more severe side only within 2 microseconds above a threshold. -/
theorem daysUntilExpiry_not_le_of_exact_gt (now t c : Int) (hmax : t - now ≤ maxDuration)
    (h : c * day + 2000 ≤ t - now) : ¬ (daysUntilExpiry now t).le (Float64.ofInt c) := by
  obtain ⟨hb1, hb2, _⟩ := timeUntil_bounds now t
  have hD : c * day + 2000 ≤ timeUntil now t := le_trans h (timeUntil_ge now t hmax)
  unfold daysUntilExpiry Float64.le
  generalize timeUntil now t = D at *
  have hcd : (0 : Int) < ((Float64.ofInt c).den : Int) := by
    exact_mod_cast (Float64.ofInt c).den_pos
  have hdd : (0 : Int) < (((durationHours D).div (Float64.ofInt 24)).den : Int) := by
    exact_mod_cast Float64.den_pos _
  have hcu : c < 2 ^ 17 := by unfold day at hD; omega
  intro hle
  rcases lt_or_le c (-(2 ^ 17)) with hc | hc
  · have hlow := le_days_dyadic D (-(2 ^ 17)) hb1 hb2 (by norm_num) (by norm_num)
      (by unfold day; omega)
    have hfc : (Float64.ofInt c).num ≤ (-(2 ^ 17)) * (Float64.ofInt c).den :=
      roundQuot_le_int c 1 (-(2 ^ 17)) Nat.one_pos (by norm_num) (by norm_num)
        (by simp only [Nat.cast_one, mul_one]; omega)
    have h1 := mul_le_mul_of_nonneg_right hfc hdd.le
    have h2 : ((durationHours D).div (Float64.ofInt 24)).num * ((Float64.ofInt c).den : Int) ≤
        (-(2 ^ 17)) * ((Float64.ofInt c).den : Int) *
          (((durationHours D).div (Float64.ofInt 24)).den : Int) := le_trans hle h1
    have h3 := mul_le_mul_of_nonneg_right hlow hcd.le
    nlinarith [mul_pos hcd hdd]
  · have hlow := le_days_dyadic D c hb1 hb2 hc hcu hD
    have hfc := Float64.ofInt_exact c (by omega) (by omega)
    rw [hfc] at hle
    have h3 := mul_le_mul_of_nonneg_right hlow hcd.le
    nlinarith [mul_pos hcd hdd]

theorem exactDays_le_iff (now t c : Int) : exactDays now t ≤ (c : ℚ) ↔ t - now ≤ c * day := by
  unfold exactDays day
  rw [div_le_iff₀ (by norm_num)]
  norm_cast

theorem margin_le_exactDays_iff (now t c : Int) :
    (c : ℚ) + roundingMargin ≤ exactDays now t ↔ c * day + 2000 ≤ t - now := by
  unfold exactDays roundingMargin day
  rw [le_div_iff₀ (by norm_num), add_mul, div_mul_cancel₀ _ (by norm_num)]
  norm_cast

/-! ## The contract of `crypto/tls` -/

/-- The example world keeps the contract of `crypto/tls` whenever its handshake
does not come after line 93. -/
theorem worldWith_contract (names : List String) (dialTime now notAfter : Int)
    (h : dialTime ≤ now) : (worldWith names dialTime now notAfter).TlsContract := by
  refine ⟨h, ?_⟩
  intro d target config conn hok hskip
  simp only [worldWith, hskip, Bool.false_eq_true, if_false] at hok
  split_ifs at hok with h1 h2
  split at hok
  · cases hok
  · rename_i hv
    cases hok
    exact ⟨h1, hv, by simpa [connFor, certExpiring] using not_lt.mp h2⟩

/-- A world whose dials all fail keeps the contract of `crypto/tls`. -/
theorem worldFailing_contract (err : DialError) : (worldFailing err).TlsContract := by
  refine ⟨le_refl _, ?_⟩
  intro d target config conn hok
  simp [worldFailing] at hok

/-- Every connection of a run was returned by a dial made with the
configuration of lines 64 to 68. -/
theorem checkCertificate_connection_dialed (w : World) (server : String)
    (warnDays critDays port : Int) (ipAddress dnsServer : String) (timeout : Int) (conn : Conn)
    (hconn : conn ∈ (checkCertificate w server warnDays critDays port ipAddress dnsServer
      timeout).connections) :
    ∃ dialer target, w.dialWithDialer dialer target (tlsConfig server) = .ok conn := by
  revert hconn
  generalize hp : checkCertificate w server warnDays critDays port ipAddress dnsServer timeout = p
  have hc := checkCertificate_outcomes w server warnDays critDays port ipAddress dnsServer timeout
  simp only [hp] at hc
  rcases hc with ⟨e, _, _, rfl⟩ | ⟨_, _, rfl⟩ | ⟨pre, dialer, target, hr, ho⟩
  · simp [Proc.connections]
  · simp [Proc.connections]
  · rcases hr with ⟨_, rfl, rfl, rfl⟩ | ⟨addr, rest, _, _, rfl, rfl, rfl⟩ <;>
    rcases ho with ⟨_, _, _, rfl⟩ | ⟨_, _, _, rfl⟩ | ⟨_, _, h, _, rfl⟩ | ⟨_, h, _, _, rfl⟩ |
      ⟨_, h, _, _, _, rfl⟩ | ⟨_, h, _, _, _, rfl⟩ <;>
    simp [Proc.connections] <;>
    intro h2 <;> subst h2 <;> exact ⟨_, _, h⟩

/-- Under the contract of `crypto/tls`, `VerifyHostname(server)` can fail after a
successful dial only when `server` is empty: for a non-empty `server` the
handshake has already verified the certificate for that name. -/
theorem verifyFailed_only_for_empty_hostname (w : World) (server : String)
    (warnDays critDays port : Int) (ipAddress dnsServer : String) (timeout : Int)
    (hw : w.TlsContract)
    (hfail : (checkCertificate w server warnDays critDays port ipAddress dnsServer
      timeout).verifyFailed = true) : server = "" := by
  by_contra hne
  revert hfail
  generalize hp : checkCertificate w server warnDays critDays port ipAddress dnsServer timeout = p
  have hc := checkCertificate_outcomes w server warnDays critDays port ipAddress dnsServer timeout
  simp only [hp] at hc
  have key : ∀ dialer target conn e, w.dialWithDialer dialer target (tlsConfig server) = .ok conn →
      conn.verifyHostname server = some e → False := by
    intro dialer target conn e hd hv
    have := (hw.2 dialer target (tlsConfig server) conn hd rfl).2.1
    simp [handshakeServerName, tlsConfig, hne] at this
    rw [this] at hv
    cases hv
  rcases hc with ⟨e, _, _, rfl⟩ | ⟨_, _, rfl⟩ | ⟨pre, dialer, target, hr, ho⟩
  · simp [Proc.verifyFailed]
  · simp [Proc.verifyFailed]
  · rcases hr with ⟨_, rfl, rfl, rfl⟩ | ⟨addr, rest, _, _, rfl, rfl, rfl⟩ <;>
    rcases ho with ⟨_, _, _, rfl⟩ | ⟨_, _, _, rfl⟩ | ⟨_, _, h, hv, rfl⟩ | ⟨_, h, _, _, rfl⟩ |
      ⟨_, h, _, _, _, rfl⟩ | ⟨_, h, _, _, _, rfl⟩ <;>
    first
      | exact fun _ => key _ _ _ _ h hv
      | simp [Proc.verifyFailed]

/-! ## The text of the lines -/

/-- The text of the INFO line with the two literals of its format joined. -/
theorem info_line_text (server label : String) :
    "SSL_CERT INFO " ++ server ++ ": " ++ ("negotiated TLS version " ++ label) ++ "\n" =
      "SSL_CERT INFO " ++ server ++ ": negotiated TLS version " ++ label ++ "\n" := by
  apply String.ext
  simp [String.data_append]

/-- The two dial failure lines of one hostname differ, whatever the duration,
the targets and the cause are: after `<hostname>: ` one starts with `T`, the
other with `f`. -/
theorem dial_failure_lines_differ (server dur target other cause : String) :
    "SSL_CERT CRITICAL " ++ server ++ ": TCP connection timeout after " ++ dur ++ " to " ++
        target ++ "\n" ≠
      "SSL_CERT CRITICAL " ++ server ++ ": failed to connect to " ++ other ++ ": " ++ cause ++
        "\n" := by
  intro h
  have h2 := congrArg String.data h
  simp only [String.data_append, List.append_assoc, List.append_cancel_left_eq] at h2
  have h3 := congrArg (fun l => l.get? 2) h2
  simp at h3

/-- The text of the line printed after a dial failure (lines 72 and 75): every
run with a dial error `err` made one dial and printed the timeout line when
`err` is a `net.Error` with `Timeout()` true, the generic line otherwise. -/
theorem checkCertificate_dial_failure_text (w : World) (server : String)
    (warnDays critDays port : Int) (ipAddress dnsServer : String) (timeout : Int) (err : DialError)
    (herr : (checkCertificate w server warnDays critDays port ipAddress dnsServer
      timeout).dialErrors = [err]) :
    ∃ dialer target,
      (checkCertificate w server warnDays critDays port ipAddress dnsServer timeout).dials =
        [(dialer, target, tlsConfig server)] ∧
      (checkCertificate w server warnDays critDays port ipAddress dnsServer
        timeout).stdout.map Line.render =
        [if err.isNetError = true ∧ err.timeout = true then
          "SSL_CERT CRITICAL " ++ server ++ ": TCP connection timeout after " ++
            w.durationString timeout ++ " to " ++ target ++ "\n"
        else
          "SSL_CERT CRITICAL " ++ server ++ ": failed to connect to " ++ target ++ ": " ++
            err.text ++ "\n"] := by
  revert herr
  generalize hp : checkCertificate w server warnDays critDays port ipAddress dnsServer timeout = p
  have hc := checkCertificate_outcomes w server warnDays critDays port ipAddress dnsServer timeout
  simp only [hp] at hc
  intro herr
  have e1 : ∀ a b c d : String, "SSL_CERT CRITICAL " ++ a ++ ": " ++
      ("TCP connection timeout after " ++ b ++ " to " ++ c) ++ d =
      "SSL_CERT CRITICAL " ++ a ++ ": TCP connection timeout after " ++ b ++ " to " ++ c ++ d := by
    intro a b c d
    apply String.ext
    simp [String.data_append]
  have e2 : ∀ a b c d : String, "SSL_CERT CRITICAL " ++ a ++ ": " ++
      ("failed to connect to " ++ b ++ ": " ++ c) ++ d =
      "SSL_CERT CRITICAL " ++ a ++ ": failed to connect to " ++ b ++ ": " ++ c ++ d := by
    intro a b c d
    apply String.ext
    simp [String.data_append]
  rcases hc with ⟨e, _, _, rfl⟩ | ⟨_, _, rfl⟩ | ⟨pre, dialer, target, hr, ho⟩
  · simp [Proc.dialErrors] at herr
  · simp [Proc.dialErrors] at herr
  · refine ⟨dialer, target, ?_⟩
    rcases hr with ⟨_, rfl, rfl, rfl⟩ | ⟨addr, rest, _, _, rfl, rfl, rfl⟩ <;>
    rcases ho with ⟨e, _, ht, rfl⟩ | ⟨e, _, ht, rfl⟩ | ⟨_, _, _, _, rfl⟩ | ⟨_, _, _, _, rfl⟩ |
      ⟨_, _, _, _, _, rfl⟩ | ⟨_, _, _, _, _, rfl⟩ <;>
    simp [Proc.dialErrors] at herr <;> subst herr <;>
    simp [Proc.dials, Proc.stdout, Line.render, Level.word, timeoutMessage, connectMessage,
      e1, e2] <;>
    split_ifs <;> simp_all

/-! ## C1: the expiry verdict -/

/-- Claim C1, as stated, fails: the clock reads 0.999999999 s past `clock` and
the leaf certificate expires 171 days and 1 s past `clock`, so the exact
remaining lifetime is 171 days plus one nanosecond, above `critDays = 171` and
below `warnDays = 172`; the claim promises WARNING with exit code 1, but
`Duration.Hours` rounds `4104 + 1/3.6e12` to `4104.0`, the quotient by 24 is
`171.0`, and the run reports CRITICAL with exit code 2. -/
theorem exact_days_verdict_counterexample :
    (checkCertificate (worldServing (clock + 999999999) (clock + 171 * day + 1000000000))
      "example.com" 172 171 443 "" "" 30000000000).connections.map (fun c => c.leaf.notAfter) =
      [clock + 171 * day + 1000000000] ∧
    (checkCertificate (worldServing (clock + 999999999) (clock + 171 * day + 1000000000))
      "example.com" 172 171 443 "" "" 30000000000).verified = true ∧
    (171 : ℚ) < exactDays (clock + 999999999) (clock + 171 * day + 1000000000) ∧
    exactDays (clock + 999999999) (clock + 171 * day + 1000000000) ≤ 172 ∧
    (checkCertificate (worldServing (clock + 999999999) (clock + 171 * day + 1000000000))
      "example.com" 172 171 443 "" "" 30000000000).stdout =
      [.info "example.com" "negotiated TLS version TLS 1.3",
        .status .CRITICAL "example.com"
          "valid, expires on 2030-01-01 (3 years from now), issuer: CN=Example CA"] ∧
    (checkCertificate (worldServing (clock + 999999999) (clock + 171 * day + 1000000000))
      "example.com" 172 171 443 "" "" 30000000000).exitCode = some 2 := by
  refine ⟨by decide, by decide, ?_, ?_, by decide, by decide⟩
  · norm_num [exactDays, day, clock]
  · norm_num [exactDays, day, clock]

/-- Every run of `checkCertificate` in which the dial returned a connection and
`VerifyHostname` returned nil prints the INFO line and the verdict line chosen
by the switch of lines 99 to 112 on the computed `daysUntilExpiry`. -/
theorem checkCertificate_switch (w : World) (server : String) (warnDays critDays port : Int)
    (ipAddress dnsServer : String) (timeout : Int) (conn : Conn)
    (hconn : (checkCertificate w server warnDays critDays port ipAddress dnsServer
      timeout).connections = [conn])
    (hver : (checkCertificate w server warnDays critDays port ipAddress dnsServer
      timeout).verified = true) :
    let p := checkCertificate w server warnDays critDays port ipAddress dnsServer timeout
    let d := daysUntilExpiry w.now conn.leaf.notAfter
    let info := Line.info server ("negotiated TLS version " ++ tlsVersionToString conn.version)
    let verdict := fun (l : Level) => Line.status l server (expiryMessage w conn.leaf)
    (d.le (Float64.ofInt critDays) →
      p.stdout = [info, verdict .CRITICAL] ∧ p.exitCode = some 2) ∧
    (¬ d.le (Float64.ofInt critDays) → d.le (Float64.ofInt warnDays) →
      p.stdout = [info, verdict .WARNING] ∧ p.exitCode = some 1) ∧
    (¬ d.le (Float64.ofInt critDays) → ¬ d.le (Float64.ofInt warnDays) →
      p.stdout = [info, verdict .OK] ∧ p.exitCode = some 0) ∧
    (∃ outcome ∈ [(Level.CRITICAL, (2 : Int)), (Level.WARNING, 1), (Level.OK, 0)],
      p.stdout = [info, verdict outcome.1] ∧ p.exitCode = some outcome.2) := by
  intro p d info verdict
  simp only [p, d, info, verdict]
  clear p d info verdict
  revert hconn hver
  generalize hp : checkCertificate w server warnDays critDays port ipAddress dnsServer timeout = p
  have hc := checkCertificate_outcomes w server warnDays critDays port ipAddress dnsServer timeout
  simp only [hp] at hc
  rcases hc with ⟨e, _, _, rfl⟩ | ⟨_, _, rfl⟩ | ⟨pre, dialer, target, hr, ho⟩
  · simp [Proc.verified]
  · simp [Proc.verified]
  · rcases hr with ⟨_, rfl, rfl, rfl⟩ | ⟨addr, rest, _, _, rfl, rfl, rfl⟩ <;>
    rcases ho with ⟨_, _, _, rfl⟩ | ⟨_, _, _, rfl⟩ | ⟨_, _, _, _, rfl⟩ | ⟨_, _, _, _, rfl⟩ |
      ⟨_, _, _, _, _, rfl⟩ | ⟨_, _, _, _, _, rfl⟩ <;>
    simp [Proc.verified, Proc.connections, Proc.stdout] <;>
    intro h <;> subst h <;> simp_all


/-- Claim C1, amended: on every run of `checkCertificate` in which the dial
returned a connection and `VerifyHostname` returned nil, with `d` the exact
fraction `(notAfter - now) / 24h` (not truncated to whole days) and
`notAfter - now` within the range of `time.Duration`: if `d <= critDays` the
output is the INFO line followed by the CRITICAL status line and the exit code
is 2; if `d` is at least the rounding margin of 2 microseconds above `critDays`
and `d <= warnDays`, the status line is WARNING and the exit code is 1; if `d`
is at least the margin above both thresholds, the status line is OK and the
exit code is 0.  Within the margin above a threshold, and outside the range of
`time.Duration`, the verdict is the one the switch of lines 99 to 112 picks on
the float64 value the code computes.  In every case exactly one of the three
outcomes occurs. -/
theorem checkCertificate_verdict (w : World) (server : String) (warnDays critDays port : Int)
    (ipAddress dnsServer : String) (timeout : Int) (conn : Conn)
    (hconn : (checkCertificate w server warnDays critDays port ipAddress dnsServer
      timeout).connections = [conn])
    (hver : (checkCertificate w server warnDays critDays port ipAddress dnsServer
      timeout).verified = true) :
    let p := checkCertificate w server warnDays critDays port ipAddress dnsServer timeout
    let d := exactDays w.now conn.leaf.notAfter
    let life := conn.leaf.notAfter - w.now
    let computed := daysUntilExpiry w.now conn.leaf.notAfter
    let info := Line.info server ("negotiated TLS version " ++ tlsVersionToString conn.version)
    let verdict := fun (l : Level) => Line.status l server (expiryMessage w conn.leaf)
    (minDuration ≤ life → d ≤ (critDays : ℚ) →
      p.stdout = [info, verdict .CRITICAL] ∧ p.exitCode = some 2) ∧
    (minDuration ≤ life → life ≤ maxDuration →
      (critDays : ℚ) + roundingMargin ≤ d → d ≤ (warnDays : ℚ) →
      p.stdout = [info, verdict .WARNING] ∧ p.exitCode = some 1) ∧
    (life ≤ maxDuration →
      (critDays : ℚ) + roundingMargin ≤ d → (warnDays : ℚ) + roundingMargin ≤ d →
      p.stdout = [info, verdict .OK] ∧ p.exitCode = some 0) ∧
    (∃ outcome ∈ [(Level.CRITICAL, (2 : Int)), (Level.WARNING, 1), (Level.OK, 0)],
      p.stdout = [info, verdict outcome.1] ∧ p.exitCode = some outcome.2) ∧
    (computed.le (Float64.ofInt critDays) →
      p.stdout = [info, verdict .CRITICAL] ∧ p.exitCode = some 2) ∧
    (¬ computed.le (Float64.ofInt critDays) → computed.le (Float64.ofInt warnDays) →
      p.stdout = [info, verdict .WARNING] ∧ p.exitCode = some 1) ∧
    (¬ computed.le (Float64.ofInt critDays) → ¬ computed.le (Float64.ofInt warnDays) →
      p.stdout = [info, verdict .OK] ∧ p.exitCode = some 0) := by
  intro p d life computed info verdict
  obtain ⟨h1, h2, h3, h4⟩ := checkCertificate_switch w server warnDays critDays port ipAddress
    dnsServer timeout conn hconn hver
  refine ⟨?_, ?_, ?_, h4, h1, h2, h3⟩
  · intro hmin hex
    exact h1 (daysUntilExpiry_le_of_exact_le _ _ _ hmin ((exactDays_le_iff _ _ _).mp hex))
  · intro hmin hmax hc hw
    exact h2
      (daysUntilExpiry_not_le_of_exact_gt _ _ _ hmax ((margin_le_exactDays_iff _ _ _).mp hc))
      (daysUntilExpiry_le_of_exact_le _ _ _ hmin ((exactDays_le_iff _ _ _).mp hw))
  · intro hmax hc hw
    exact h3
      (daysUntilExpiry_not_le_of_exact_gt _ _ _ hmax ((margin_le_exactDays_iff _ _ _).mp hc))
      (daysUntilExpiry_not_le_of_exact_gt _ _ _ hmax ((margin_le_exactDays_iff _ _ _).mp hw))

/-- An instance of `checkCertificate_verdict` that a truncation to whole days
would get wrong: a certificate expiring in 7.5 days with thresholds 14 and 7
gives WARNING and exit code 1. -/
theorem checkCertificate_verdict_witness :
    (checkCertificate (worldServing clock (clock + 7 * day + 12 * hour)) "example.com" 14 7 443
      "" "" 30000000000).connections = [connFor ["example.com"] (clock + 7 * day + 12 * hour)] ∧
    (checkCertificate (worldServing clock (clock + 7 * day + 12 * hour)) "example.com" 14 7 443
      "" "" 30000000000).verified = true ∧
    (worldServing clock (clock + 7 * day + 12 * hour)).TlsContract ∧
    (checkCertificate (worldServing clock (clock + 7 * day + 12 * hour)) "example.com" 14 7 443
      "" "" 30000000000).stdout = [.info "example.com" "negotiated TLS version TLS 1.3",
        .status .WARNING "example.com"
          "valid, expires on 2030-01-01 (3 years from now), issuer: CN=Example CA"] ∧
    (checkCertificate (worldServing clock (clock + 7 * day + 12 * hour)) "example.com" 14 7 443
      "" "" 30000000000).exitCode = some 1 :=
  ⟨rfl, rfl, worldWith_contract _ _ _ _ (le_refl _),
    (checkCertificate_verdict (worldServing clock (clock + 7 * day + 12 * hour)) "example.com"
      14 7 443 "" "" 30000000000 (connFor ["example.com"] (clock + 7 * day + 12 * hour))
      rfl rfl).2.1 (by decide) (by decide)
      (by norm_num [exactDays, roundingMargin, worldServing, worldWith, connFor, certExpiring,
        clock, day, hour])
      (by norm_num [exactDays, worldServing, worldWith, connFor, certExpiring, clock, day,
        hour])⟩

/-- The int64 saturation of `time.Until` also separates the computed value from
the exact one: a certificate expiring a million days from now counts as
106751.99 days and is CRITICAL under thresholds 120000 and 110000. -/
theorem daysUntilExpiry_saturates :
    (120000 : ℚ) < exactDays clock (clock + 1000000 * day) ∧
    timeUntil clock (clock + 1000000 * day) = maxDuration ∧
    (checkCertificate (worldServing clock (clock + 1000000 * day)) "example.com"
      120000 110000 443 "" "" 30000000000).exitCode = some 2 := by
  refine ⟨?_, by decide, by decide⟩
  norm_num [exactDays, clock, day]

/-! ## C2: failures before the expiry check -/

/-- Claim C2: on every run of `checkCertificate` in which the custom DNS lookup
returned an error or no address, or the TLS dial failed, or hostname
verification failed, standard output is exactly one CRITICAL status line and
the exit code is 2; output and exit code are the same for every `warnDays`,
`critDays` and leaf `notAfter`, and after a DNS failure also for every
`ipAddress`. -/
theorem checkCertificate_failure_critical (w : World) (server : String)
    (warnDays critDays port : Int) (ipAddress dnsServer : String) (timeout : Int)
    (hfail :
      (checkCertificate w server warnDays critDays port ipAddress dnsServer
        timeout).lookupFailed = true ∨
      (checkCertificate w server warnDays critDays port ipAddress dnsServer
        timeout).dialErrors ≠ [] ∨
      (checkCertificate w server warnDays critDays port ipAddress dnsServer
        timeout).verifyFailed = true) :
    let p := checkCertificate w server warnDays critDays port ipAddress dnsServer timeout
    (∃ msg, p.stdout = [.status .CRITICAL server msg]) ∧ p.exitCode = some 2 ∧
    (∀ (warnDays' critDays' notAfter' : Int),
      (checkCertificate (w.withNotAfter notAfter') server warnDays' critDays' port ipAddress
        dnsServer timeout).stdout = p.stdout ∧
      (checkCertificate (w.withNotAfter notAfter') server warnDays' critDays' port ipAddress
        dnsServer timeout).exitCode = p.exitCode) ∧
    (p.lookupFailed = true → ∀ (warnDays' critDays' notAfter' : Int) (ipAddress' : String),
      (checkCertificate (w.withNotAfter notAfter') server warnDays' critDays' port ipAddress'
        dnsServer timeout).stdout = p.stdout ∧
      (checkCertificate (w.withNotAfter notAfter') server warnDays' critDays' port ipAddress'
        dnsServer timeout).exitCode = p.exitCode) := by
  intro p
  simp only [p]
  clear p
  revert hfail
  generalize hp : checkCertificate w server warnDays critDays port ipAddress dnsServer timeout = p
  have hc := checkCertificate_outcomes w server warnDays critDays port ipAddress dnsServer timeout
  simp only [hp] at hc
  rcases hc with ⟨e, hdns, hl, rfl⟩ | ⟨hdns, hl, rfl⟩ | ⟨pre, dialer, target, hr, ho⟩
  · intro _
    have key : ∀ (warnDays' critDays' notAfter' : Int) (ipAddress' : String),
        checkCertificate (w.withNotAfter notAfter') server warnDays' critDays' port ipAddress'
          dnsServer timeout = ⟨[.lookupHost dnsServer timeout server (.error e),
        .stdout (.status .CRITICAL server
          ("failed to resolve " ++ server ++ " using DNS server " ++ dnsServer ++ ": " ++ e)),
        .exit 2], [], some 2⟩ := by
      intro a b c d
      simp [checkCertificate, World.withNotAfter, hdns, hl, Proc.emit, Proc.printf, Proc.osExit, Proc.ret]
    simp [key, Proc.stdout]
  · intro _
    have key : ∀ (warnDays' critDays' notAfter' : Int) (ipAddress' : String),
        checkCertificate (w.withNotAfter notAfter') server warnDays' critDays' port ipAddress'
          dnsServer timeout = ⟨[.lookupHost dnsServer timeout server (.ok []),
        .stdout (.status .CRITICAL server
          ("no IP addresses resolved for " ++ server ++ " using DNS server " ++ dnsServer)),
        .exit 2], [], some 2⟩ := by
      intro a b c d
      simp [checkCertificate, World.withNotAfter, hdns, hl, Proc.emit, Proc.printf, Proc.osExit, Proc.ret]
    simp [key, Proc.stdout]
  · intro hfail
    rcases hr with ⟨hdns, rfl, rfl, rfl⟩ | ⟨addr, rest, hdns, hl, rfl, rfl, rfl⟩
    · rcases ho with ⟨err, hd, ht, rfl⟩ | ⟨err, hd, ht, rfl⟩ | ⟨conn, e, hd, hv, rfl⟩ |
        ⟨conn, hd, hv, _, rfl⟩ | ⟨conn, hd, hv, _, _, rfl⟩ | ⟨conn, hd, hv, _, _, rfl⟩
      · have key : ∀ (warnDays' critDays' notAfter' : Int),
            (checkCertificate (w.withNotAfter notAfter') server warnDays' critDays' port ipAddress
              dnsServer timeout).stdout = [.status .CRITICAL server (timeoutMessage w timeout ((if ipAddress = "" then server else ipAddress) ++ ":" ++ toString port))] ∧
            (checkCertificate (w.withNotAfter notAfter') server warnDays' critDays' port ipAddress
              dnsServer timeout).exitCode = some 2 := by
          intro a b c
          simp only [checkCertificate, dialAndClassify, World.withNotAfter, hdns, hd, ht,
            ne_eq, not_true_eq_false, not_false_eq_true, if_true, if_false]
          simp [Proc.stdout, Proc.emit, Proc.printf, Proc.osExit, Proc.ret, Proc.defer,
            timeoutMessage]
        exact ⟨⟨_, rfl⟩, rfl, key, fun h => by simp [Proc.lookupFailed] at h⟩
      · have key : ∀ (warnDays' critDays' notAfter' : Int),
            (checkCertificate (w.withNotAfter notAfter') server warnDays' critDays' port ipAddress
              dnsServer timeout).stdout = [.status .CRITICAL server (connectMessage ((if ipAddress = "" then server else ipAddress) ++ ":" ++ toString port) err.text)] ∧
            (checkCertificate (w.withNotAfter notAfter') server warnDays' critDays' port ipAddress
              dnsServer timeout).exitCode = some 2 := by
          intro a b c
          simp only [checkCertificate, dialAndClassify, World.withNotAfter, hdns, hd, ht,
            ne_eq, not_true_eq_false, not_false_eq_true, if_true, if_false]
          simp [Proc.stdout, Proc.emit, Proc.printf, Proc.osExit, Proc.ret, Proc.defer,
            timeoutMessage]
        exact ⟨⟨_, rfl⟩, rfl, key, fun h => by simp [Proc.lookupFailed] at h⟩
      · have key : ∀ (warnDays' critDays' notAfter' : Int),
            (checkCertificate (w.withNotAfter notAfter') server warnDays' critDays' port ipAddress
              dnsServer timeout).stdout = [.status .CRITICAL server ("hostname verification failed for " ++ ((if ipAddress = "" then server else ipAddress) ++ ":" ++ toString port) ++ ": " ++ e)] ∧
            (checkCertificate (w.withNotAfter notAfter') server warnDays' critDays' port ipAddress
              dnsServer timeout).exitCode = some 2 := by
          intro a b c
          simp only [checkCertificate, dialAndClassify, World.withNotAfter, hdns, hd, hv,
            ne_eq, not_true_eq_false, not_false_eq_true, if_true, if_false]
          simp [Proc.stdout, Proc.emit, Proc.printf, Proc.osExit, Proc.ret, Proc.defer,
            timeoutMessage]
        exact ⟨⟨_, rfl⟩, rfl, key, fun h => by simp [Proc.lookupFailed] at h⟩
      · exact absurd hfail (by simp [Proc.lookupFailed, Proc.dialErrors, Proc.verifyFailed])
      · exact absurd hfail (by simp [Proc.lookupFailed, Proc.dialErrors, Proc.verifyFailed])
      · exact absurd hfail (by simp [Proc.lookupFailed, Proc.dialErrors, Proc.verifyFailed])
    · rcases ho with ⟨err, hd, ht, rfl⟩ | ⟨err, hd, ht, rfl⟩ | ⟨conn, e, hd, hv, rfl⟩ |
        ⟨conn, hd, hv, _, rfl⟩ | ⟨conn, hd, hv, _, _, rfl⟩ | ⟨conn, hd, hv, _, _, rfl⟩
      · have key : ∀ (warnDays' critDays' notAfter' : Int),
            (checkCertificate (w.withNotAfter notAfter') server warnDays' critDays' port ipAddress
              dnsServer timeout).stdout = [.status .CRITICAL server (timeoutMessage w timeout ((if (if ipAddress = "" then server else ipAddress) = server then addr else (if ipAddress = "" then server else ipAddress)) ++ ":" ++ toString port))] ∧
            (checkCertificate (w.withNotAfter notAfter') server warnDays' critDays' port ipAddress
              dnsServer timeout).exitCode = some 2 := by
          intro a b c
          by_cases hip : (if ipAddress = "" then server else ipAddress) = server
          · simp only [hip, if_true] at hd
            simp only [checkCertificate, dialAndClassify, World.withNotAfter, hdns, hl, hd, ht, hip,
              ne_eq, not_true_eq_false, not_false_eq_true, if_true, if_false]
            simp [Proc.stdout, Proc.emit, Proc.printf, Proc.osExit, Proc.ret, Proc.defer,
              timeoutMessage]
          · simp only [hip, if_false] at hd
            simp only [checkCertificate, dialAndClassify, World.withNotAfter, hdns, hl, hd, ht, hip,
              ne_eq, not_true_eq_false, not_false_eq_true, if_true, if_false]
            simp [Proc.stdout, Proc.emit, Proc.printf, Proc.osExit, Proc.ret, Proc.defer,
              timeoutMessage]
        exact ⟨⟨_, rfl⟩, rfl, key, fun h => by simp [Proc.lookupFailed] at h⟩
      · have key : ∀ (warnDays' critDays' notAfter' : Int),
            (checkCertificate (w.withNotAfter notAfter') server warnDays' critDays' port ipAddress
              dnsServer timeout).stdout = [.status .CRITICAL server (connectMessage ((if (if ipAddress = "" then server else ipAddress) = server then addr else (if ipAddress = "" then server else ipAddress)) ++ ":" ++ toString port) err.text)] ∧
            (checkCertificate (w.withNotAfter notAfter') server warnDays' critDays' port ipAddress
              dnsServer timeout).exitCode = some 2 := by
          intro a b c
          by_cases hip : (if ipAddress = "" then server else ipAddress) = server
          · simp only [hip, if_true] at hd
            simp only [checkCertificate, dialAndClassify, World.withNotAfter, hdns, hl, hd, ht, hip,
              ne_eq, not_true_eq_false, not_false_eq_true, if_true, if_false]
            simp [Proc.stdout, Proc.emit, Proc.printf, Proc.osExit, Proc.ret, Proc.defer,
              timeoutMessage]
          · simp only [hip, if_false] at hd
            simp only [checkCertificate, dialAndClassify, World.withNotAfter, hdns, hl, hd, ht, hip,
              ne_eq, not_true_eq_false, not_false_eq_true, if_true, if_false]
            simp [Proc.stdout, Proc.emit, Proc.printf, Proc.osExit, Proc.ret, Proc.defer,
              timeoutMessage]
        exact ⟨⟨_, rfl⟩, rfl, key, fun h => by simp [Proc.lookupFailed] at h⟩
      · have key : ∀ (warnDays' critDays' notAfter' : Int),
            (checkCertificate (w.withNotAfter notAfter') server warnDays' critDays' port ipAddress
              dnsServer timeout).stdout = [.status .CRITICAL server ("hostname verification failed for " ++ ((if (if ipAddress = "" then server else ipAddress) = server then addr else (if ipAddress = "" then server else ipAddress)) ++ ":" ++ toString port) ++ ": " ++ e)] ∧
            (checkCertificate (w.withNotAfter notAfter') server warnDays' critDays' port ipAddress
              dnsServer timeout).exitCode = some 2 := by
          intro a b c
          by_cases hip : (if ipAddress = "" then server else ipAddress) = server
          · simp only [hip, if_true] at hd
            simp only [checkCertificate, dialAndClassify, World.withNotAfter, hdns, hl, hd, hv, hip,
              ne_eq, not_true_eq_false, not_false_eq_true, if_true, if_false]
            simp [Proc.stdout, Proc.emit, Proc.printf, Proc.osExit, Proc.ret, Proc.defer,
              timeoutMessage]
          · simp only [hip, if_false] at hd
            simp only [checkCertificate, dialAndClassify, World.withNotAfter, hdns, hl, hd, hv, hip,
              ne_eq, not_true_eq_false, not_false_eq_true, if_true, if_false]
            simp [Proc.stdout, Proc.emit, Proc.printf, Proc.osExit, Proc.ret, Proc.defer,
              timeoutMessage]
        exact ⟨⟨_, rfl⟩, rfl, key, fun h => by simp [Proc.lookupFailed] at h⟩
      · exact absurd hfail (by simp [Proc.lookupFailed, Proc.dialErrors, Proc.verifyFailed])
      · exact absurd hfail (by simp [Proc.lookupFailed, Proc.dialErrors, Proc.verifyFailed])
      · exact absurd hfail (by simp [Proc.lookupFailed, Proc.dialErrors, Proc.verifyFailed])

/-- Scenario E of the spec as an instance of `checkCertificate_failure_critical`:
a refused connection gives one CRITICAL line and exit code 2. -/
theorem checkCertificate_failure_critical_witness :
    (checkCertificate worldDown "example.com" 14 7 443 "" "" 30000000000).dialErrors ≠ [] ∧
    (checkCertificate worldDown "example.com" 14 7 443 "" "" 30000000000).exitCode = some 2 :=
  ⟨by decide,
    (checkCertificate_failure_critical worldDown "example.com" 14 7 443 "" "" 30000000000
      (Or.inr (Or.inl (by decide)))).2.1⟩

/-! ## C3: expired certificates and the sign of `critDays` -/

/-- Claim C3, as stated, fails: the flags `-c -10 -w -5` pass the validation of
`main` (it only compares the two thresholds), so `critDays` is negative.  The
handshake of `crypto/tls` rejects a certificate that has expired when the chain
is verified, so an expired leaf reaches line 93 only when it expires between
the handshake and line 93: here the certificate expires at `clock + 1 s`, the
handshake verifies it 1 ms earlier and line 93 reads the clock 1 ms later.  The
dial and `VerifyHostname` succeed, `notAfter` is earlier than `now`, and the run
reports OK with exit code 0. -/
theorem negative_threshold_expired_counterexample :
    main (worldWith ["example.com"] (clock + 999000000) (clock + 1001000000) (clock + 1000000000))
        { critDays := -10, warnDays := -5, hostname := "example.com" } =
      checkCertificate
        (worldWith ["example.com"] (clock + 999000000) (clock + 1001000000) (clock + 1000000000))
        "example.com" (-5) (-10) 443 "" "" (connectTimeout 30) ∧
    (worldWith ["example.com"] (clock + 999000000) (clock + 1001000000)
      (clock + 1000000000)).TlsContract ∧
    (checkCertificate
      (worldWith ["example.com"] (clock + 999000000) (clock + 1001000000) (clock + 1000000000))
      "example.com" (-5) (-10) 443 "" "" (connectTimeout 30)).connections.map
        (fun c => c.leaf.notAfter) = [clock + 1000000000] ∧
    clock + 1000000000 <
      (worldWith ["example.com"] (clock + 999000000) (clock + 1001000000)
        (clock + 1000000000)).now ∧
    (checkCertificate
      (worldWith ["example.com"] (clock + 999000000) (clock + 1001000000) (clock + 1000000000))
      "example.com" (-5) (-10) 443 "" "" (connectTimeout 30)).verified = true ∧
    (checkCertificate
      (worldWith ["example.com"] (clock + 999000000) (clock + 1001000000) (clock + 1000000000))
      "example.com" (-5) (-10) 443 "" "" (connectTimeout 30)).stdout =
      [.info "example.com" "negotiated TLS version TLS 1.3",
        .status .OK "example.com"
          "valid, expires on 2030-01-01 (3 years from now), issuer: CN=Example CA"] ∧
    (checkCertificate
      (worldWith ["example.com"] (clock + 999000000) (clock + 1001000000) (clock + 1000000000))
      "example.com" (-5) (-10) 443 "" "" (connectTimeout 30)).exitCode = some 0 := by
  refine ⟨rfl, worldWith_contract _ _ _ _ (by decide), by decide, by decide, by decide,
    by decide, by decide⟩

/-- Claim C3, amended: for every `critDays ≥ 0` (a condition `main` does not
check) and every leaf certificate whose `notAfter` is earlier than the clock
read on line 93, on a run in which the dial returned a connection and
`VerifyHostname` returned nil, `checkCertificate` prints the INFO line and a
CRITICAL status line and exits with code 2.  Under the contract of `crypto/tls`
such a certificate had not expired when the handshake verified it. -/
theorem checkCertificate_expired_critical (w : World) (server : String)
    (warnDays critDays port : Int) (ipAddress dnsServer : String) (timeout : Int) (conn : Conn)
    (hcrit : 0 ≤ critDays)
    (hconn : (checkCertificate w server warnDays critDays port ipAddress dnsServer
      timeout).connections = [conn])
    (hver : (checkCertificate w server warnDays critDays port ipAddress dnsServer
      timeout).verified = true)
    (hexp : conn.leaf.notAfter < w.now) :
    let p := checkCertificate w server warnDays critDays port ipAddress dnsServer timeout
    p.stdout = [.info server ("negotiated TLS version " ++ tlsVersionToString conn.version),
      .status .CRITICAL server (expiryMessage w conn.leaf)] ∧
    p.exitCode = some 2 ∧
    (w.TlsContract → w.dialTime ≤ conn.leaf.notAfter) := by
  intro p
  simp only [p]
  clear p
  have hle := daysUntilExpiry_le_of_expired w.now conn.leaf.notAfter critDays hexp hcrit
  have hdial := checkCertificate_connection_dialed w server warnDays critDays port ipAddress
    dnsServer timeout conn (by rw [hconn]; exact List.mem_singleton_self _)
  have hwin : w.TlsContract → w.dialTime ≤ conn.leaf.notAfter := by
    intro hw
    obtain ⟨dialer, target, hd⟩ := hdial
    exact (hw.2 dialer target (tlsConfig server) conn hd rfl).2.2
  revert hconn hver
  generalize hp : checkCertificate w server warnDays critDays port ipAddress dnsServer timeout = p
  have hc := checkCertificate_outcomes w server warnDays critDays port ipAddress dnsServer timeout
  simp only [hp] at hc
  rcases hc with ⟨e, _, _, rfl⟩ | ⟨_, _, rfl⟩ | ⟨pre, dialer, target, hr, ho⟩
  · simp [Proc.verified]
  · simp [Proc.verified]
  · rcases hr with ⟨_, rfl, rfl, rfl⟩ | ⟨addr, rest, _, _, rfl, rfl, rfl⟩ <;>
    rcases ho with ⟨_, _, _, rfl⟩ | ⟨_, _, _, rfl⟩ | ⟨_, _, _, _, rfl⟩ | ⟨_, _, _, _, rfl⟩ |
      ⟨_, _, _, _, _, rfl⟩ | ⟨_, _, _, _, _, rfl⟩ <;>
    simp [Proc.verified, Proc.connections, Proc.stdout] <;>
    intro h <;> subst h <;> simp_all

/-- An instance of `checkCertificate_expired_critical` with the default
thresholds 14 and 7: the certificate for `example.com` expires at `clock + 1 s`,
the handshake verifies it 1 ms earlier and line 93 reads the clock 1 ms later;
the run reports CRITICAL with exit code 2. -/
theorem checkCertificate_expired_critical_witness :
    (0 : Int) ≤ 7 ∧
    (worldWith ["example.com"] (clock + 999000000) (clock + 1001000000)
      (clock + 1000000000)).TlsContract ∧
    (checkCertificate
      (worldWith ["example.com"] (clock + 999000000) (clock + 1001000000) (clock + 1000000000))
      "example.com" 14 7 443 "" "" 30000000000).connections =
        [connFor ["example.com"] (clock + 1000000000)] ∧
    (checkCertificate
      (worldWith ["example.com"] (clock + 999000000) (clock + 1001000000) (clock + 1000000000))
      "example.com" 14 7 443 "" "" 30000000000).verified = true ∧
    (connFor ["example.com"] (clock + 1000000000)).leaf.notAfter <
      (worldWith ["example.com"] (clock + 999000000) (clock + 1001000000)
        (clock + 1000000000)).now ∧
    (checkCertificate
      (worldWith ["example.com"] (clock + 999000000) (clock + 1001000000) (clock + 1000000000))
      "example.com" 14 7 443 "" "" 30000000000).stdout =
      [.info "example.com" "negotiated TLS version TLS 1.3",
        .status .CRITICAL "example.com"
          "valid, expires on 2030-01-01 (3 years from now), issuer: CN=Example CA"] ∧
    (checkCertificate
      (worldWith ["example.com"] (clock + 999000000) (clock + 1001000000) (clock + 1000000000))
      "example.com" 14 7 443 "" "" 30000000000).exitCode = some 2 :=
  ⟨by decide, worldWith_contract _ _ _ _ (by decide), rfl, rfl, by decide,
    (checkCertificate_expired_critical
      (worldWith ["example.com"] (clock + 999000000) (clock + 1001000000) (clock + 1000000000))
      "example.com" 14 7 443 "" "" 30000000000 (connFor ["example.com"] (clock + 1000000000))
      (by decide) rfl rfl (by decide)).1,
    (checkCertificate_expired_critical
      (worldWith ["example.com"] (clock + 999000000) (clock + 1001000000) (clock + 1000000000))
      "example.com" 14 7 443 "" "" 30000000000 (connFor ["example.com"] (clock + 1000000000))
      (by decide) rfl rfl (by decide)).2.1⟩

/-- Scenario D of the spec, a certificate that expired 5 days ago: the handshake
of `crypto/tls` rejects it, the dial returns an error, and the run reports
CRITICAL with exit code 2 through the dial failure branch of line 75, whatever
the thresholds are (here `-c -10 -w -5`). -/
theorem expired_before_handshake_is_dial_failure :
    (worldServing clock (clock - 5 * day)).TlsContract ∧
    (checkCertificate (worldServing clock (clock - 5 * day)) "example.com" (-5) (-10) 443 "" ""
      30000000000).connections.length = 0 ∧
    (checkCertificate (worldServing clock (clock - 5 * day)) "example.com" (-5) (-10) 443 "" ""
      30000000000).stdout = [.status .CRITICAL "example.com"
        ("failed to connect to example.com:443: tls: failed to verify certificate: " ++
          "x509: certificate has expired or is not yet valid")] ∧
    (checkCertificate (worldServing clock (clock - 5 * day)) "example.com" (-5) (-10) 443 "" ""
      30000000000).exitCode = some 2 :=
  ⟨worldWith_contract _ _ _ _ (le_refl _), by decide, by decide, by decide⟩

/-! ## C4: the validation in `main` -/

/-- Claim C4: the run of `main` is the run of `checkCertificate` (with the
flags and the converted timeout) if and only if `warnDays > critDays`,
`timeoutSec > 0` and `dnsServer` is empty or accepted by `net.SplitHostPort`;
for every other flag combination the run is one message on the error stream
followed by `os.Exit(1)`, with nothing on standard output. -/
theorem main_runs_check_iff_valid (w : World) (f : Flags) :
    let valid := f.critDays < f.warnDays ∧ 0 < f.timeoutSec ∧
      (f.dnsServer = "" ∨ w.splitHostPortOk f.dnsServer = true)
    let check := checkCertificate w f.hostname f.warnDays f.critDays f.port f.ipAddress
      f.dnsServer (connectTimeout f.timeoutSec)
    (valid ↔ main w f = check) ∧
    (¬ valid → (∃ msg, (main w f).events = [.stderr msg, .exit 1]) ∧
      (main w f).stdout = [] ∧ (main w f).exitCode = some 1) := by
  intro valid check
  have hs := checkCertificate_streams w f.hostname f.warnDays f.critDays f.port f.ipAddress
      f.dnsServer (connectTimeout f.timeoutSec)
  have hret : check.ret = check := by
    have := hs.2.2.1
    show Proc.ret check = check
    unfold Proc.ret
    cases hx : check.exitCode with
    | none => exact absurd hx this
    | some c => rfl
  have hinv : ¬ valid → (∃ msg, (main w f).events = [.stderr msg, .exit 1]) ∧
      (main w f).stdout = [] ∧ (main w f).exitCode = some 1 := by
    intro hv
    simp only [valid, not_and_or, not_lt, not_or] at hv
    unfold main
    rcases hv with h | h | h
    · simp [h, Proc.eprintln, Proc.emit, Proc.osExit, Proc.ret, Proc.stdout]
    · by_cases h1 : f.warnDays ≤ f.critDays
      · simp [h1, Proc.eprintln, Proc.emit, Proc.osExit, Proc.ret, Proc.stdout]
      · simp [h1, h, Proc.eprintln, Proc.emit, Proc.osExit, Proc.ret, Proc.stdout]
    · by_cases h1 : f.warnDays ≤ f.critDays
      · simp [h1, Proc.eprintln, Proc.emit, Proc.osExit, Proc.ret, Proc.stdout]
      · by_cases h2 : f.timeoutSec ≤ 0
        · simp [h1, h2, Proc.eprintln, Proc.emit, Proc.osExit, Proc.ret, Proc.stdout]
        · simp [h1, h2, h.1, h.2, Proc.eprintln, Proc.emit, Proc.osExit, Proc.ret, Proc.stdout]
  refine ⟨⟨?_, ?_⟩, hinv⟩
  · rintro ⟨h1, h2, h3⟩
    have h3' : (f.dnsServer ≠ "" && !w.splitHostPortOk f.dnsServer) = false := by
      rcases h3 with h | h <;> simp [h]
    unfold main
    simp only [not_le.mpr h1, not_le.mpr h2, h3', if_false]
    exact hret
  · intro heq
    by_contra hv
    have := (hinv hv).2.1
    rw [heq] at this
    exact hs.2.1 this

/-! ## C5: the dial target with a custom DNS server -/

/-- Claim C5 at its failing input: with `-H example.com -I example.com` and a
DNS server whose lookup returns `93.184.216.34`, the override is explicit and
non-empty, yet the dial target is `93.184.216.34:443`, not `example.com:443`:
line 57 tests `ipAddress == server` to decide whether an override was given. -/
theorem override_equal_to_hostname_dials_resolved_address :
    (checkCertificate (worldServing clock (clock + 30 * day)) "example.com" 14 7 443
      "example.com" "8.8.8.8:53" 30000000000).lookups =
      [("8.8.8.8:53", 30000000000, "example.com")] ∧
    (checkCertificate (worldServing clock (clock + 30 * day)) "example.com" 14 7 443
      "example.com" "8.8.8.8:53" 30000000000).dials =
      [(⟨30000000000, some "8.8.8.8:53"⟩, "93.184.216.34:443", tlsConfig "example.com")] ∧
    (checkCertificate (worldServing clock (clock + 30 * day)) "example.com" 14 7 443
      "example.com" "8.8.8.8:53" 30000000000).dials.map (fun d => d.2.1) ≠
      ["example.com:443"] := by
  decide

/-! ## C6: the dial target without a DNS server -/

/-- Claim C6, as stated, fails for the empty hostname: `main` accepts
`-H "" -I localhost`; the configuration of the dial has `ServerName` empty, so
`crypto/tls` takes the name of the handshake, and with it the SNI extension,
from the dial address `localhost:443`: the handshake runs with `localhost`, not
with the hostname.  The server presents a certificate for `localhost`, so the
dial returns a connection; `VerifyHostname` is then called with the hostname. -/
theorem empty_hostname_sni_counterexample :
    main (worldWith ["localhost"] clock clock (clock + 30 * day))
        { hostname := "", ipAddress := "localhost" } =
      checkCertificate (worldWith ["localhost"] clock clock (clock + 30 * day))
        "" 14 7 443 "localhost" "" (connectTimeout 30) ∧
    (worldWith ["localhost"] clock clock (clock + 30 * day)).TlsContract ∧
    (checkCertificate (worldWith ["localhost"] clock clock (clock + 30 * day))
      "" 14 7 443 "localhost" "" (connectTimeout 30)).dials =
      [(⟨30000000000, none⟩, "localhost:443",
        { serverName := "", insecureSkipVerify := false, minVersion := 0x0300 })] ∧
    (checkCertificate (worldWith ["localhost"] clock clock (clock + 30 * day))
      "" 14 7 443 "localhost" "" (connectTimeout 30)).handshakeNames = ["localhost"] ∧
    (checkCertificate (worldWith ["localhost"] clock clock (clock + 30 * day))
      "" 14 7 443 "localhost" "" (connectTimeout 30)).handshakeNames ≠ [""] ∧
    (checkCertificate (worldWith ["localhost"] clock clock (clock + 30 * day))
      "" 14 7 443 "localhost" "" (connectTimeout 30)).connections.length = 1 ∧
    (checkCertificate (worldWith ["localhost"] clock clock (clock + 30 * day))
      "" 14 7 443 "localhost" "" (connectTimeout 30)).verifiedNames = [""] := by
  refine ⟨rfl, worldWith_contract _ _ _ _ (le_refl _), by decide, by decide, by decide,
    by decide, by decide⟩

/-- Claim C6, amended: with `dnsServer` empty, for every hostname, port and
override, exactly one dial is made, with target `ipAddress:port` when
`ipAddress` is non-empty and `server:port` when it is empty, and with the
configuration `ServerName: server, InsecureSkipVerify: false, MinVersion:
VersionSSL30`; no DNS lookup is made; the name the handshake runs with (from
which `crypto/tls` derives the SNI extension) is `server` when `server` is
non-empty and the host part of the dial target when `server` is empty; and
`VerifyHostname` is called exactly once, with `server`, when the dial returned
a connection, and not at all when it did not. -/
theorem checkCertificate_no_dns_target (w : World) (server : String)
    (warnDays critDays port : Int) (ipAddress : String) (timeout : Int) :
    let p := checkCertificate w server warnDays critDays port ipAddress "" timeout
    (ipAddress ≠ "" →
      p.dials = [(⟨timeout, none⟩, ipAddress ++ ":" ++ toString port,
        { serverName := server, insecureSkipVerify := false, minVersion := 0x0300 })]) ∧
    (ipAddress = "" →
      p.dials = [(⟨timeout, none⟩, server ++ ":" ++ toString port,
        { serverName := server, insecureSkipVerify := false, minVersion := 0x0300 })]) ∧
    p.lookups = [] ∧
    (server ≠ "" → p.handshakeNames = [server]) ∧
    (server = "" → p.handshakeNames = [hostOfAddr (ipAddress ++ ":" ++ toString port)]) ∧
    (p.connections ≠ [] → p.verifiedNames = [server]) ∧
    (p.connections = [] → p.verifiedNames = []) := by
  intro p
  simp only [p]
  clear p
  generalize hp : checkCertificate w server warnDays critDays port ipAddress "" timeout = p
  have hc := checkCertificate_outcomes w server warnDays critDays port ipAddress "" timeout
  simp only [hp] at hc
  rcases hc with ⟨e, h, _, rfl⟩ | ⟨h, _, rfl⟩ | ⟨pre, dialer, target, hr, ho⟩
  · exact absurd rfl h
  · exact absurd rfl h
  · rcases hr with ⟨_, rfl, rfl, rfl⟩ | ⟨addr, rest, h, _, rfl, rfl, rfl⟩
    · rcases ho with ⟨_, _, _, rfl⟩ | ⟨_, _, _, rfl⟩ | ⟨_, _, _, _, rfl⟩ | ⟨_, _, _, _, rfl⟩ |
        ⟨_, _, _, _, _, rfl⟩ | ⟨_, _, _, _, _, rfl⟩ <;>
      simp [Proc.dials, Proc.lookups, Proc.verifiedNames, Proc.handshakeNames, Proc.connections,
        handshakeServerName, tlsConfig, versionSSL30] <;>
      refine ⟨?_, ?_, ?_, ?_⟩ <;> intro h <;> simp [h] <;>
      by_cases hip : ipAddress = "" <;> simp [hip]
    · exact absurd rfl h

/-! ## C7: the deferred `conn.Close` -/

/-- Claim C7 at its failing input: on a healthy run (scenario A) the dial
returned a connection and `conn.Close` was deferred, but the process ends by
`os.Exit(0)` with the call still pending: it is never performed. -/
theorem deferred_close_never_runs :
    (checkCertificate (worldServing clock (clock + 30 * day)) "example.com" 14 7 443
      "" "" 30000000000).connections.length = 1 ∧
    (checkCertificate (worldServing clock (clock + 30 * day)) "example.com" 14 7 443
      "" "" 30000000000).closed = false ∧
    (checkCertificate (worldServing clock (clock + 30 * day)) "example.com" 14 7 443
      "" "" 30000000000).deferred = [.close] ∧
    (checkCertificate (worldServing clock (clock + 30 * day)) "example.com" 14 7 443
      "" "" 30000000000).exitCode = some 0 := by
  refine ⟨by decide, by decide, rfl, by decide⟩

/-! ## C8: the lines written -/

/-- Claim C8, as stated, fails: with `-H "" -I localhost` the handshake runs
with the name `localhost` taken from the dial address, the server presents a
certificate for `localhost`, and the dial returns a connection (the handshake
completed); `VerifyHostname("")` then fails, and the only line written is the
CRITICAL status line: no INFO line. -/
theorem verification_failure_no_info_counterexample :
    (worldWith ["localhost"] clock clock (clock + 30 * day)).TlsContract ∧
    (checkCertificate (worldWith ["localhost"] clock clock (clock + 30 * day))
      "" 14 7 443 "localhost" "" 30000000000).connections.length = 1 ∧
    (checkCertificate (worldWith ["localhost"] clock clock (clock + 30 * day))
      "" 14 7 443 "localhost" "" 30000000000).verifyFailed = true ∧
    (checkCertificate (worldWith ["localhost"] clock clock (clock + 30 * day))
      "" 14 7 443 "localhost" "" 30000000000).stdout.map Line.render =
      ["SSL_CERT CRITICAL : hostname verification failed for localhost:443: " ++
        "x509: certificate is valid for localhost, not \n"] ∧
    (checkCertificate (worldWith ["localhost"] clock clock (clock + 30 * day))
      "" 14 7 443 "localhost" "" 30000000000).exitCode = some 2 := by
  refine ⟨worldWith_contract _ _ _ _ (le_refl _), by decide, by decide, by decide, by decide⟩

/-- Claim C8, amended: every run of `checkCertificate` writes exactly one status
line `SSL_CERT <LEVEL> <hostname>: <message>` with LEVEL one of OK, WARNING and
CRITICAL; when `VerifyHostname` returned nil the output is the line
`SSL_CERT INFO <hostname>: negotiated TLS version <label>`, with the label of
the negotiated version, followed by the status line; on every other run (DNS
failure, dial failure, and hostname verification failure after a completed
handshake) the output is the single status line, of level CRITICAL.  A run
whose hostname verification failed did complete a handshake. -/
theorem checkCertificate_output_lines (w : World) (server : String)
    (warnDays critDays port : Int) (ipAddress dnsServer : String) (timeout : Int) :
    let p := checkCertificate w server warnDays critDays port ipAddress dnsServer timeout
    (p.stdout.filter Line.isStatus).length = 1 ∧
    (p.verified = true → ∃ conn word msg, p.connections = [conn] ∧
      word ∈ ["OK", "WARNING", "CRITICAL"] ∧
      p.stdout.map Line.render =
        ["SSL_CERT INFO " ++ server ++ ": negotiated TLS version " ++
            tlsVersionToString conn.version ++ "\n",
          "SSL_CERT " ++ word ++ " " ++ server ++ ": " ++ msg ++ "\n"]) ∧
    (p.verified = false → ∃ msg,
      p.stdout.map Line.render = ["SSL_CERT CRITICAL " ++ server ++ ": " ++ msg ++ "\n"]) ∧
    (p.verifyFailed = true → p.connections.length = 1 ∧ p.verified = false) ∧
    (p.connections = [] → p.verified = false) := by
  intro p
  simp only [p]
  clear p
  generalize hp : checkCertificate w server warnDays critDays port ipAddress dnsServer timeout = p
  have hc := checkCertificate_outcomes w server warnDays critDays port ipAddress dnsServer timeout
  simp only [hp] at hc
  rcases hc with ⟨e, _, _, rfl⟩ | ⟨_, _, rfl⟩ | ⟨pre, dialer, target, hr, ho⟩
  · simp [Proc.verified, Proc.verifyFailed, Proc.stdout, Line.isStatus, Line.render, Level.word]
    exact ⟨_, rfl⟩
  · simp [Proc.verified, Proc.verifyFailed, Proc.stdout, Line.isStatus, Line.render, Level.word]
    exact ⟨_, rfl⟩
  · rcases hr with ⟨_, rfl, rfl, rfl⟩ | ⟨addr, rest, _, _, rfl, rfl, rfl⟩ <;>
    rcases ho with ⟨_, _, _, rfl⟩ | ⟨_, _, _, rfl⟩ | ⟨_, _, _, _, rfl⟩ | ⟨_, _, _, _, rfl⟩ |
      ⟨_, _, _, _, _, rfl⟩ | ⟨_, _, _, _, _, rfl⟩ <;>
    simp [Proc.verified, Proc.verifyFailed, Proc.connections, Proc.stdout, Line.isStatus,
      Line.render, Level.word, info_line_text] <;>
    first
      | exact ⟨_, rfl⟩
      | exact Or.inr (Or.inr ⟨_, rfl⟩)
      | exact Or.inr (Or.inl ⟨_, rfl⟩)
      | exact Or.inl ⟨_, rfl⟩

/-! ## C9: the two dial failure messages -/

/-- Claim C9, as stated, fails: "for all hostnames" the timeout line is not
always different from a generic failure line.  Both runs pass the validation of
`main` with the default thresholds and timeout.  In the first the hostname flag
is `a: TCP connection timeout after 30s to 10.0.0.1:443: failed to connect to
10.0.0.2:443: tls: failed to verify certificate: x509: certificate is valid for
example.com, not a`, the override is `10.0.0.1`, and the dial times out.  In
the second the hostname flag is `a: TCP connection timeout after 30s to
10.0.0.1:443`, the override is `10.0.0.2`, the server presents a certificate for
`example.com`, and the handshake fails with the hostname error of `crypto/x509`,
which is not a timeout.  The two hostnames differ and the two runs print the
same line. -/
theorem dial_failure_lines_equal_counterexample :
    (checkCertificate
      (worldFailing { isNetError := true, timeout := true,
                      text := "dial tcp 10.0.0.1:443: i/o timeout" })
      ("a: TCP connection timeout after 30s to 10.0.0.1:443: failed to connect to " ++
        "10.0.0.2:443: tls: failed to verify certificate: " ++
        "x509: certificate is valid for example.com, not a")
      14 7 443 "10.0.0.1" "" 30000000000).dialErrors =
      [{ isNetError := true, timeout := true, text := "dial tcp 10.0.0.1:443: i/o timeout" }] ∧
    (checkCertificate (worldServing clock (clock + 30 * day))
      "a: TCP connection timeout after 30s to 10.0.0.1:443"
      14 7 443 "10.0.0.2" "" 30000000000).dialErrors =
      [{ isNetError := false, timeout := false,
         text := "tls: failed to verify certificate: x509: certificate is valid for " ++
           "example.com, not a: TCP connection timeout after 30s to 10.0.0.1:443" }] ∧
    (worldServing clock (clock + 30 * day)).TlsContract ∧
    ("a: TCP connection timeout after 30s to 10.0.0.1:443: failed to connect to " ++
        "10.0.0.2:443: tls: failed to verify certificate: " ++
        "x509: certificate is valid for example.com, not a") ≠
      "a: TCP connection timeout after 30s to 10.0.0.1:443" ∧
    (checkCertificate
      (worldFailing { isNetError := true, timeout := true,
                      text := "dial tcp 10.0.0.1:443: i/o timeout" })
      ("a: TCP connection timeout after 30s to 10.0.0.1:443: failed to connect to " ++
        "10.0.0.2:443: tls: failed to verify certificate: " ++
        "x509: certificate is valid for example.com, not a")
      14 7 443 "10.0.0.1" "" 30000000000).stdout.map Line.render =
      ["SSL_CERT CRITICAL a: TCP connection timeout after 30s to 10.0.0.1:443: " ++
        "failed to connect to 10.0.0.2:443: tls: failed to verify certificate: " ++
        "x509: certificate is valid for example.com, not a: " ++
        "TCP connection timeout after 30s to 10.0.0.1:443\n"] ∧
    (checkCertificate (worldServing clock (clock + 30 * day))
      "a: TCP connection timeout after 30s to 10.0.0.1:443"
      14 7 443 "10.0.0.2" "" 30000000000).stdout.map Line.render =
      ["SSL_CERT CRITICAL a: TCP connection timeout after 30s to 10.0.0.1:443: " ++
        "failed to connect to 10.0.0.2:443: tls: failed to verify certificate: " ++
        "x509: certificate is valid for example.com, not a: " ++
        "TCP connection timeout after 30s to 10.0.0.1:443\n"] := by
  refine ⟨by decide, by decide, worldWith_contract _ _ _ _ (le_refl _), by decide, by decide,
    by decide⟩

/-- Claim C9, amended: on every run of `checkCertificate` whose dial failed with
error `err`, the line printed is `SSL_CERT CRITICAL <hostname>: TCP connection
timeout after <timeout> to <target>` if and only if `err` is a `net.Error` whose
`Timeout()` is true, and otherwise it is `SSL_CERT CRITICAL <hostname>: failed
to connect to <target>: <cause>`, with `<target>` the dialled target; the exit
code is 2 in both cases; and the line of a run that timed out differs from the
line of every run for the same hostname whose dial failed otherwise, whatever
the targets, timeouts and causes of the two runs are. -/
theorem checkCertificate_dial_failure_message (w : World) (server : String)
    (warnDays critDays port : Int) (ipAddress dnsServer : String) (timeout : Int) (err : DialError)
    (herr : (checkCertificate w server warnDays critDays port ipAddress dnsServer
      timeout).dialErrors = [err]) :
    let p := checkCertificate w server warnDays critDays port ipAddress dnsServer timeout
    (∃ dialer target, p.dials = [(dialer, target, tlsConfig server)] ∧
      (err.isNetError = true ∧ err.timeout = true →
        p.stdout.map Line.render =
          ["SSL_CERT CRITICAL " ++ server ++ ": TCP connection timeout after " ++
            w.durationString timeout ++ " to " ++ target ++ "\n"]) ∧
      (¬ (err.isNetError = true ∧ err.timeout = true) →
        p.stdout.map Line.render =
          ["SSL_CERT CRITICAL " ++ server ++ ": failed to connect to " ++ target ++ ": " ++
            err.text ++ "\n"]) ∧
      (p.stdout.map Line.render =
          ["SSL_CERT CRITICAL " ++ server ++ ": TCP connection timeout after " ++
            w.durationString timeout ++ " to " ++ target ++ "\n"] ↔
        (err.isNetError = true ∧ err.timeout = true))) ∧
    p.exitCode = some 2 ∧
    (∀ (w2 : World) (warnDays2 critDays2 port2 : Int) (ipAddress2 dnsServer2 : String)
        (timeout2 : Int) (err2 : DialError),
      (checkCertificate w2 server warnDays2 critDays2 port2 ipAddress2 dnsServer2
        timeout2).dialErrors = [err2] →
      (err.isNetError = true ∧ err.timeout = true) →
      ¬ (err2.isNetError = true ∧ err2.timeout = true) →
      p.stdout.map Line.render ≠
        (checkCertificate w2 server warnDays2 critDays2 port2 ipAddress2 dnsServer2
          timeout2).stdout.map Line.render) := by
  intro p
  obtain ⟨dialer, target, hd, hl⟩ := checkCertificate_dial_failure_text w server warnDays critDays
    port ipAddress dnsServer timeout err herr
  refine ⟨⟨dialer, target, hd, ?_, ?_, ?_⟩, ?_, ?_⟩
  · intro h
    rw [hl, if_pos h]
  · intro h
    rw [hl, if_neg h]
  · constructor
    · intro h
      by_contra hn
      rw [hl, if_neg hn] at h
      exact dial_failure_lines_differ _ _ _ _ _ (List.head_eq_of_cons_eq h).symm
    · intro h
      rw [hl, if_pos h]
  · have hc := checkCertificate_outcomes w server warnDays critDays port ipAddress dnsServer timeout
    revert herr
    simp only [p]
    generalize checkCertificate w server warnDays critDays port ipAddress dnsServer timeout = q
      at hc ⊢
    intro herr
    rcases hc with ⟨e, _, _, rfl⟩ | ⟨_, _, rfl⟩ | ⟨pre, dialer, target, hr, ho⟩
    · rfl
    · rfl
    · rcases ho with ⟨e, _, ht, rfl⟩ | ⟨e, _, ht, rfl⟩ | ⟨_, _, _, _, rfl⟩ | ⟨_, _, _, _, rfl⟩ |
        ⟨_, _, _, _, _, rfl⟩ | ⟨_, _, _, _, _, rfl⟩
      · rfl
      · rfl
      · rfl
      · rfl
      · rcases hr with ⟨_, rfl, rfl, rfl⟩ | ⟨addr, rest, _, _, rfl, rfl, rfl⟩ <;>
          simp [Proc.dialErrors] at herr
      · rcases hr with ⟨_, rfl, rfl, rfl⟩ | ⟨addr, rest, _, _, rfl, rfl, rfl⟩ <;>
          simp [Proc.dialErrors] at herr
  · intro w2 warnDays2 critDays2 port2 ipAddress2 dnsServer2 timeout2 err2 herr2 h1 h2 heq
    obtain ⟨_, target2, _, hl2⟩ := checkCertificate_dial_failure_text w2 server warnDays2
      critDays2 port2 ipAddress2 dnsServer2 timeout2 err2 herr2
    rw [hl, hl2, if_pos h1, if_neg h2] at heq
    exact dial_failure_lines_differ _ _ _ _ _ (List.head_eq_of_cons_eq heq)

/-- Scenario E of the spec as an instance of
`checkCertificate_dial_failure_message`: a refused connection prints the
generic line, not the timeout line, and exits with code 2. -/
theorem checkCertificate_dial_failure_message_witness :
    (checkCertificate worldDown "example.com" 14 7 443 "" "" 30000000000).dialErrors =
      [{ isNetError := true, timeout := false, text := "connection refused" }] ∧
    (checkCertificate worldDown "example.com" 14 7 443 "" "" 30000000000).stdout.map
      Line.render =
      ["SSL_CERT CRITICAL example.com: failed to connect to example.com:443: " ++
        "connection refused\n"] ∧
    (checkCertificate worldDown "example.com" 14 7 443 "" "" 30000000000).exitCode = some 2 :=
  ⟨by decide, by decide,
    (checkCertificate_dial_failure_message worldDown "example.com" 14 7 443 "" "" 30000000000
      { isNetError := true, timeout := false, text := "connection refused" } (by decide)).2.1⟩

/-! ## C10: the timeout conversion -/

/-- Claim C10, as stated, fails: `-t 9223372037` is positive and fits an int64,
so it passes the validation of `main`, but the int64 product with `time.Second`
wraps to -9223372036709551616 ns, a negative duration, and that is the timeout
of the dialer `checkCertificate` builds. -/
theorem timeout_overflow_counterexample :
    (0 : Int) < 9223372037 ∧ (9223372037 : Int) < 2 ^ 63 ∧
    connectTimeout 9223372037 = -9223372036709551616 ∧
    (main (worldServing clock (clock + 30 * day))
      { hostname := "example.com", timeoutSec := 9223372037 }).dials
      = [(⟨-9223372036709551616, none⟩, "example.com:443", tlsConfig "example.com")] := by
  decide

/-- Claim C10, amended: for every `timeoutSec` with `0 < timeoutSec ≤ 9223372036`
the duration handed to `checkCertificate` is exactly `timeoutSec` seconds and is
positive. -/
theorem connectTimeout_exact (timeoutSec : Int) (h0 : 0 < timeoutSec)
    (h1 : timeoutSec ≤ 9223372036) :
    connectTimeout timeoutSec = timeoutSec * second ∧ 0 < connectTimeout timeoutSec := by
  have hmod : (timeoutSec * 1000000000 + 2 ^ 63) % 2 ^ 64 = timeoutSec * 1000000000 + 2 ^ 63 :=
    Int.emod_eq_of_lt (by omega) (by omega)
  unfold connectTimeout wrapInt64 second
  rw [hmod]
  constructor <;> omega

/-- The default `-t 30` as an instance of `connectTimeout_exact`. -/
theorem connectTimeout_exact_witness :
    (0 : Int) < 30 ∧ (30 : Int) ≤ 9223372036 ∧
    connectTimeout 30 = 30 * second ∧ 0 < connectTimeout 30 :=
  ⟨by decide, by decide, connectTimeout_exact 30 (by decide) (by decide)⟩

end CheckSslCert
